import Mathlib

/-!
Verification of the cler_tools static-analysis toolchain (extractor,
validation rule engine, graph layout engine) against its specification.
The Python modules under tools/cler_tools are shallowly embedded: Python
dicts become insertion-ordered association lists, mutation becomes state
passing, raised exceptions become Except values, and float coordinates
become rationals.
-/

namespace ClerTools

/-- Insertion-ordered dictionary lookup, modelling a Python dict read
(first binding wins; embedded dicts never hold duplicate keys). -/
def alistGet {α : Type} (l : List (String × α)) (k : String) : Option α :=
  (l.find? (fun p => p.1 == k)).map (fun p => p.2)

/-- In-place value update for an existing key, modelling a Python dict
write to a present key; absent keys are left untouched. -/
def alistSet {α : Type} (l : List (String × α)) (k : String) (v : α) :
    List (String × α) :=
  l.map (fun p => if p.1 == k then (k, v) else p)

/-- Keys of an association list, in insertion order. -/
def alistKeys {α : Type} (l : List (String × α)) : List String :=
  l.map (fun p => p.1)

/-! ## Domain model (cler_tools/common/cpp_parser.py) -/

/-- Embeds dataclass Block of common/cpp_parser.py. -/
structure Block where
  name : String
  type : String
  line : Nat
  column : Nat
  inputs : List String
  outputs : List String
  has_runner : Bool
  in_flowgraph : Bool
  template_params : Option String
  constructor_args : List String
  channel_types : List (String × String)
deriving Repr, DecidableEq

/-- Block field defaults from the dataclass declaration. -/
def Block.mkDefault (name type : String) (line : Nat) : Block :=
  ⟨name, type, line, 0, [], [], false, false, none, [], []⟩

/-- Embeds dataclass Connection of common/cpp_parser.py. -/
structure Connection where
  source_block : String
  source_channel : String
  target_block : String
  target_channel : String
  channel_index : Option Nat
deriving Repr, DecidableEq

/-- Embeds dataclass FlowGraph of common/cpp_parser.py. -/
structure FlowGraph where
  name : String
  blocks : List (String × Block)
  connections : List Connection
deriving Repr, DecidableEq

/-! ## Constructor-argument splitting
(ClerParser.parse_constructor_args, cpp_parser.py lines 92-130). -/

/-- The single-quote character (codepoint 39). -/
def squote : Char := Char.ofNat 39

/-- Python str.strip() on a character sequence: drop leading and
trailing whitespace. -/
def stripChars (l : List Char) : List Char :=
  ((l.dropWhile Char.isWhitespace).reverse.dropWhile Char.isWhitespace).reverse

/-- Python str.strip() producing a string. -/
def stripStr (l : List Char) : String := String.mk (stripChars l)

/-- Scanner state of the character loop in parse_constructor_args.
seps records the indices of the characters that acted as top-level
argument separators, and idx the number of characters consumed. -/
structure ArgScanState where
  args : List String
  current : List Char
  depth : Int
  inQuotes : Bool
  quoteChar : Option Char
  seps : List Nat
  idx : Nat
deriving Repr, DecidableEq

/-- One iteration of the character loop of parse_constructor_args,
branch for branch: quote characters toggle the quoted state, any
character inside quotes is accumulated, the three opening brackets
increment the depth, the three closing brackets decrement it, and a
comma at depth zero flushes the current argument (stripped). -/
def argScanStep (st : ArgScanState) (c : Char) : ArgScanState :=
  if c == '"' || c == squote then
    if !st.inQuotes then
      { st with inQuotes := true, quoteChar := some c,
                current := st.current ++ [c], idx := st.idx + 1 }
    else if some c == st.quoteChar then
      { st with inQuotes := false, quoteChar := none,
                current := st.current ++ [c], idx := st.idx + 1 }
    else
      { st with current := st.current ++ [c], idx := st.idx + 1 }
  else if st.inQuotes then
    { st with current := st.current ++ [c], idx := st.idx + 1 }
  else if c == '(' || c == '{' || c == '[' then
    { st with depth := st.depth + 1, current := st.current ++ [c],
              idx := st.idx + 1 }
  else if c == ')' || c == '}' || c == ']' then
    { st with depth := st.depth - 1, current := st.current ++ [c],
              idx := st.idx + 1 }
  else if c == ',' && st.depth == 0 then
    { st with args := st.args ++ [stripStr st.current],
              current := [], seps := st.seps ++ [st.idx], idx := st.idx + 1 }
  else
    { st with current := st.current ++ [c], idx := st.idx + 1 }

/-- Initial scanner state. -/
def argScanInit : ArgScanState := ⟨[], [], 0, false, none, [], 0⟩

/-- Running the loop over a character sequence. -/
def argScanRun (s : List Char) : ArgScanState :=
  s.foldl argScanStep argScanInit

/-- Embeds ClerParser.parse_constructor_args: early return on blank
input, then the scan, then the stripped trailing argument if any. -/
def parseConstructorArgs (argsStr : String) : List String :=
  if (stripChars argsStr.data == []) then []
  else
    let st := argScanRun argsStr.data
    if (stripChars st.current == []) then st.args
    else st.args ++ [stripStr st.current]

/-- A separator index is admissible for the character sequence s when
the character there is a comma and the scanner state accumulated over
the strict prefix is at depth zero and outside quotes. -/
def sepOK (s : List Char) (i : Nat) : Prop :=
  s.get? i = some ',' ∧ (argScanRun (s.take i)).depth = 0 ∧
    (argScanRun (s.take i)).inQuotes = false

theorem argScanStep_idx (st : ArgScanState) (c : Char) :
    (argScanStep st c).idx = st.idx + 1 := by
  unfold argScanStep
  split_ifs <;> rfl

theorem argScanRun_idx_aux (s : List Char) :
    ∀ st : ArgScanState, (s.foldl argScanStep st).idx = st.idx + s.length := by
  induction s with
  | nil => intro st; simp
  | cons c s ih =>
      intro st
      simp only [List.foldl_cons, ih, argScanStep_idx, List.length_cons]
      omega

theorem argScanRun_idx (s : List Char) : (argScanRun s).idx = s.length := by
  simpa [argScanRun, argScanInit] using argScanRun_idx_aux s argScanInit

theorem argScanStep_seps (st : ArgScanState) (c : Char) :
    (argScanStep st c).seps = st.seps ∨
      ((argScanStep st c).seps = st.seps ++ [st.idx] ∧ c = ',' ∧
        st.inQuotes = false ∧ st.depth = 0) := by
  unfold argScanStep
  split_ifs with h1 h2 h3 h4 h5 h6 h7
  · exact Or.inl rfl
  · exact Or.inl rfl
  · exact Or.inl rfl
  · exact Or.inl rfl
  · exact Or.inl rfl
  · exact Or.inl rfl
  · refine Or.inr ⟨rfl, ?_, ?_, ?_⟩
    · have := (Bool.and_eq_true _ _).mp h7
      exact eq_of_beq this.1
    · simpa using h4
    · have := (Bool.and_eq_true _ _).mp h7
      exact eq_of_beq this.2
  · exact Or.inl rfl

theorem sepOK_extend (pre : List Char) (c : Char) (i : Nat)
    (hi : i < pre.length) (h : sepOK pre i) : sepOK (pre ++ [c]) i := by
  obtain ⟨h1, h2, h3⟩ := h
  have hget : (pre ++ [c]).get? i = pre.get? i :=
    List.get?_append hi
  have htake : (pre ++ [c]).take i = pre.take i := by
    rw [List.take_append_eq_append_take]
    have : i - pre.length = 0 := by omega
    simp [this]
  exact ⟨hget.trans h1, by rw [htake]; exact h2, by rw [htake]; exact h3⟩

theorem seps_invariant_aux :
    ∀ (l pre : List Char),
      (∀ i ∈ (argScanRun pre).seps, i < pre.length ∧ sepOK pre i) →
      ∀ i ∈ (argScanRun (pre ++ l)).seps,
        i < (pre ++ l).length ∧ sepOK (pre ++ l) i := by
  intro l
  induction l with
  | nil => intro pre H; simpa using H
  | cons c l ih =>
      intro pre H
      have hrw : pre ++ c :: l = (pre ++ [c]) ++ l := by simp
      rw [hrw]
      apply ih (pre ++ [c])
      have hstep : argScanRun (pre ++ [c]) = argScanStep (argScanRun pre) c := by
        simp [argScanRun, List.foldl_append]
      intro i hi
      rw [hstep] at hi
      rcases argScanStep_seps (argScanRun pre) c with hcase | ⟨hseq, hc, hq, hd⟩
      · rw [hcase] at hi
        obtain ⟨hlt, hok⟩ := H i hi
        exact ⟨by simpa using Nat.lt_succ_of_lt hlt, sepOK_extend pre c i hlt hok⟩
      · rw [hseq] at hi
        rcases List.mem_append.mp hi with hi' | hi'
        · obtain ⟨hlt, hok⟩ := H i hi'
          exact ⟨by simpa using Nat.lt_succ_of_lt hlt, sepOK_extend pre c i hlt hok⟩
        · have hidx : i = pre.length := by
            have := List.mem_singleton.mp hi'
            rw [this, argScanRun_idx]
          subst hidx
          refine ⟨by simp, ?_, ?_, ?_⟩
          · rw [List.get?_append_right (Nat.le_refl _)]
            simp [hc]
          · have : (pre ++ [c]).take pre.length = pre := List.take_left pre [c]
            rw [this, hd]
          · have : (pre ++ [c]).take pre.length = pre := List.take_left pre [c]
            rw [this, hq]

theorem seps_sound (s : List Char) :
    ∀ i ∈ (argScanRun s).seps, i < s.length ∧ sepOK s i := by
  have := seps_invariant_aux s []
  simp only [List.nil_append] at this
  apply this
  intro i hi
  simp [argScanRun, argScanInit] at hi

/-- Claim C7: splitting the constructor-argument text
a(b,c), "x,y", [1,2] at top level yields exactly the three parts
a(b,c) and "x,y" and [1,2]; and in general a comma that sits at
nonzero bracket depth, or inside a quoted string literal, never acts
as an argument separator in parse_constructor_args. -/
theorem constructor_args_split_C7 :
    parseConstructorArgs "a(b,c), \"x,y\", [1,2]" =
      ["a(b,c)", "\"x,y\"", "[1,2]"] ∧
    ∀ (s : List Char) (i : Nat),
      ((argScanRun (s.take i)).depth ≠ 0 ∨
        (argScanRun (s.take i)).inQuotes = true) →
      i ∉ (argScanRun s).seps := by
  refine ⟨by rfl, ?_⟩
  intro s i hnest hmem
  obtain ⟨_, _, hok2, hok3⟩ := seps_sound s i hmem
  rcases hnest with h | h
  · exact h hok2
  · rw [hok3] at h
    exact Bool.false_ne_true h

/-- Witness for claim C7 at a concrete input: in the string (,) the
comma sits at bracket depth one, and index 1 is indeed not a separator
position. -/
theorem constructor_args_split_C7_witness :
    (1 : Nat) ∉ (argScanRun ("(,)".data)).seps :=
  constructor_args_split_C7.2 "(,)".data 1 (by left; decide)

/-! ## Runner-argument splitting and connection extraction
(ClerParser, cpp_parser.py lines 259-321). -/

/-- State of the character loop in split_arguments. -/
structure SplitState where
  parts : List String
  current : List Char
  depth : Int
deriving Repr, DecidableEq

/-- One iteration of the character loop of split_arguments: the two
opening brackets increment the depth, the two closing brackets
decrement it, a comma at depth zero flushes the current part, and
every non-separator character (brackets included) is accumulated. -/
def splitArgStep (st : SplitState) (c : Char) : SplitState :=
  if c == '(' || c == '[' then
    { st with depth := st.depth + 1, current := st.current ++ [c] }
  else if c == ')' || c == ']' then
    { st with depth := st.depth - 1, current := st.current ++ [c] }
  else if c == ',' && st.depth == 0 then
    { st with parts := st.parts ++ [stripStr st.current], current := [] }
  else
    { st with current := st.current ++ [c] }

/-- Embeds ClerParser.split_arguments. -/
def splitArguments (argsStr : String) : List String :=
  let st := argsStr.data.foldl splitArgStep ⟨[], [], 0⟩
  if stripChars st.current == [] then st.parts
  else st.parts ++ [stripStr st.current]

/-- One match of the channel_connection pattern of patterns.py:
an ampersand, a block identifier, a dot, a channel identifier, and an
optional bracketed decimal index. -/
structure ChannelRef where
  block : String
  channel : String
  index : Option Nat
deriving Repr, DecidableEq

/-- A word character in the sense of the regex class used by
channel_connection (ASCII letters, digits, underscore). -/
def isWordChar (c : Char) : Bool := c.isAlphanum || c == '_'

/-- Decimal digits to a natural number, as int() does on the matched
digit group. -/
def digitsToNat (ds : List Char) : Nat :=
  ds.foldl (fun n c => n * 10 + (c.toNat - 48)) 0

/-- Attempt to match the channel_connection regex at the head of the
character sequence; on success return the captured reference and the
characters after the match. The three character classes of the
pattern (word characters, the dot, the bracketed digits) are disjoint
from their delimiters, so maximal munch is exact and the regex engine
never backtracks into a completed group. -/
def matchChannelRef (cs : List Char) : Option (ChannelRef × List Char) :=
  match cs with
  | '&' :: rest =>
    let w1 := rest.takeWhile isWordChar
    let r1 := rest.dropWhile isWordChar
    if w1 == [] then none
    else
      match r1 with
      | '.' :: r2 =>
        let w2 := r2.takeWhile isWordChar
        let r3 := r2.dropWhile isWordChar
        if w2 == [] then none
        else
          match r3 with
          | '[' :: r4 =>
            let ds := r4.takeWhile Char.isDigit
            let r5 := r4.dropWhile Char.isDigit
            if ds == [] then some (⟨String.mk w1, String.mk w2, none⟩, r3)
            else
              match r5 with
              | ']' :: r6 =>
                  some (⟨String.mk w1, String.mk w2, some (digitsToNat ds)⟩, r6)
              | _ => some (⟨String.mk w1, String.mk w2, none⟩, r3)
          | _ => some (⟨String.mk w1, String.mk w2, none⟩, r3)
      | _ => none
  | _ => none

/-- The scan loop of re.finditer for the channel_connection pattern:
left to right, non-overlapping, resuming after each match; fuel is
the remaining character count, which bounds the number of scan steps. -/
def findChannelRefsAux : Nat → List Char → List ChannelRef
  | 0, _ => []
  | _, [] => []
  | fuel + 1, c :: rest =>
      match matchChannelRef (c :: rest) with
      | some (r, rem) => r :: findChannelRefsAux fuel rem
      | none => findChannelRefsAux fuel rest

/-- All matches of the channel_connection pattern in a string. -/
def findChannelRefs (s : String) : List ChannelRef :=
  findChannelRefsAux s.data.length s.data

/-- Embeds ClerParser.parse_connections: early return on an empty
string, split the runner arguments at top level, and for every
channel-reference match in every part append one Connection whose
source channel is the literal string out. -/
def parseConnections (connectionsStr : String) (sourceBlock : String) :
    List Connection :=
  if connectionsStr == "" then []
  else
    (splitArguments connectionsStr).flatMap (fun part =>
      (findChannelRefs part).map (fun r =>
        ⟨sourceBlock, "out", r.block, r.channel, r.index⟩))

/-- One loop iteration of ClerParser.extract_runners for a single
blockrunner_call regex match, the match giving the runner block name
(group 1) and the optional remaining-arguments text (group 2). A
matched runner block that resolves is marked has_runner and
in_flowgraph, and a non-empty arguments text contributes its parsed
connections. -/
def runnerStep (acc : List (String × Block) × List Connection)
    (m : String × Option String) :
    List (String × Block) × List Connection :=
  let bs' :=
    match alistGet acc.1 m.1 with
    | some b => alistSet acc.1 m.1
        { b with has_runner := true, in_flowgraph := true }
    | none => acc.1
  match m.2 with
  | some cstr =>
      if cstr == "" then (bs', acc.2)
      else (bs', acc.2 ++ parseConnections cstr m.1)
  | none => (bs', acc.2)

/-- Embeds ClerParser.extract_runners over the list of
blockrunner_call regex matches. -/
def extractRunners (blocks : List (String × Block))
    (runnerMatches : List (String × Option String)) :
    List (String × Block) × List Connection :=
  runnerMatches.foldl runnerStep (blocks, [])

/-- Embeds ClerParser.extract_channel_members over the list of
channel-member regex matches, each entry giving the block key the
struct body belongs to, the channel element type (group 1) and the
channel name (group 2): record the type if new and append the name to
the inputs if new. -/
def extractChannelMembers (bs : List (String × Block))
    (memberDecls : List (String × String × String)) :
    List (String × Block) :=
  memberDecls.foldl (fun bs d =>
    match alistGet bs d.1 with
    | some b =>
        let b1 :=
          if d.2.2 ∈ alistKeys b.channel_types then b
          else { b with channel_types := b.channel_types ++ [(d.2.2, d.2.1)] }
        let b2 :=
          if d.2.2 ∈ b1.inputs then b1
          else { b1 with inputs := b1.inputs ++ [d.2.2] }
        alistSet bs d.1 b2
    | none => bs) bs

/-- First stanza of ClerParser.infer_from_connections: when the source
block resolves, add the connection source channel to its outputs if
absent. -/
def inferSourceStep (bs : List (String × Block)) (conn : Connection) :
    List (String × Block) :=
  match alistGet bs conn.source_block with
  | some sb =>
      if conn.source_channel ∈ sb.outputs then bs
      else alistSet bs conn.source_block
        { sb with outputs := sb.outputs ++ [conn.source_channel] }
  | none => bs

/-- Second stanza of ClerParser.infer_from_connections: when the target
block resolves and the channel is new, add it to the inputs, but only
when either no struct evidence exists (empty channel_types) or the
channel appears among the declared channel types. -/
def inferTargetStep (bs : List (String × Block)) (conn : Connection) :
    List (String × Block) :=
  match alistGet bs conn.target_block with
  | some tb =>
      if conn.target_channel ∈ tb.inputs then bs
      else if tb.channel_types ≠ [] then
        if conn.target_channel ∈ alistKeys tb.channel_types then
          alistSet bs conn.target_block
            { tb with inputs := tb.inputs ++ [conn.target_channel] }
        else bs
      else
        alistSet bs conn.target_block
          { tb with inputs := tb.inputs ++ [conn.target_channel] }
  | none => bs

/-- One loop iteration of infer_from_connections. -/
def inferStep (bs : List (String × Block)) (conn : Connection) :
    List (String × Block) :=
  inferTargetStep (inferSourceStep bs conn) conn

/-- Embeds ClerParser.infer_from_connections. -/
def inferFromConnections (bs : List (String × Block))
    (conns : List Connection) : List (String × Block) :=
  conns.foldl inferStep bs

/-- Embeds ClerParser.parse_file from flowgraph extraction onward.
The two purely lexical passes that precede it, extract_blocks and the
struct-body search of extract_channel_members, are abstracted by
their observable results: blocks0 is the block table after block
discovery and memberDecls the list of channel-member matches; the
runner matches of the flowgraph span are runnerMatches. The pipeline
order is that of parse_file: runner extraction (blocks marked and
connections collected), then member extraction, then connection-based
inference, then the FlowGraph value is assembled from copies. -/
def parseFileModel (name : String) (blocks0 : List (String × Block))
    (runnerMatches : List (String × Option String))
    (memberDecls : List (String × String × String)) : FlowGraph :=
  let br := extractRunners blocks0 runnerMatches
  let bs2 := extractChannelMembers br.1 memberDecls
  let bs3 := inferFromConnections bs2 br.2
  ⟨name, bs3, br.2⟩

/-! ## Association-list dictionary lemmas -/

theorem alistKeys_cons {α : Type} (p : String × α) (l : List (String × α)) :
    alistKeys (p :: l) = p.1 :: alistKeys l := rfl

theorem alistGet_cons_eq {α : Type} {p : String × α} (l : List (String × α))
    {k : String} (h : (p.1 == k) = true) : alistGet (p :: l) k = some p.2 := by
  simp [alistGet, List.find?, h]

theorem alistGet_cons_ne {α : Type} {p : String × α} (l : List (String × α))
    {k : String} (h : (p.1 == k) = false) :
    alistGet (p :: l) k = alistGet l k := by
  simp [alistGet, List.find?, h]

theorem alistSet_cons_eq {α : Type} {p : String × α} (l : List (String × α))
    {k : String} (v : α) (h : (p.1 == k) = true) :
    alistSet (p :: l) k v = (k, v) :: alistSet l k v := by
  show (if p.1 == k then (k, v) else p) :: alistSet l k v = _
  rw [if_pos h]

theorem alistSet_cons_ne {α : Type} {p : String × α} (l : List (String × α))
    {k : String} (v : α) (h : (p.1 == k) = false) :
    alistSet (p :: l) k v = p :: alistSet l k v := by
  show (if p.1 == k then (k, v) else p) :: alistSet l k v = _
  rw [if_neg (by simp [h])]

theorem alistGet_alistSet {α : Type} (l : List (String × α)) (k k' : String)
    (v : α) :
    alistGet (alistSet l k v) k' =
      if k' = k then (alistGet l k).map (fun _ => v) else alistGet l k' := by
  induction l with
  | nil => by_cases h : k' = k <;> simp [alistGet, alistSet, h]
  | cons p l ih =>
      cases hb : p.1 == k with
      | true =>
          have hpk : p.1 = k := by simpa using hb
          rw [alistSet_cons_eq l v hb]
          by_cases hk' : k' = k
          · subst hk'
            rw [alistGet_cons_eq (p := (k', v)) _ (by simp), if_pos rfl,
              alistGet_cons_eq l hb]
            rfl
          · have h1 : ((k, v).1 == k') = false := by
              simp only [beq_eq_false_iff_ne, ne_eq]
              exact fun h => hk' h.symm
            have h2 : (p.1 == k') = false := by rw [hpk]; exact h1
            rw [alistGet_cons_ne _ h1, ih, if_neg hk', if_neg hk',
              alistGet_cons_ne l h2]
      | false =>
          rw [alistSet_cons_ne l v hb]
          by_cases hk' : k' = k
          · subst hk'
            rw [alistGet_cons_ne _ hb, ih, if_pos rfl, if_pos rfl,
              alistGet_cons_ne l hb]
          · cases h2 : p.1 == k' with
            | true =>
                rw [alistGet_cons_eq _ h2, if_neg hk', alistGet_cons_eq l h2]
            | false =>
                rw [alistGet_cons_ne _ h2, ih, if_neg hk', if_neg hk',
                  alistGet_cons_ne l h2]

theorem alistKeys_alistSet {α : Type} (l : List (String × α)) (k : String)
    (v : α) : alistKeys (alistSet l k v) = alistKeys l := by
  induction l with
  | nil => rfl
  | cons p l ih =>
      cases hb : p.1 == k with
      | true =>
          have hpk : p.1 = k := by simpa using hb
          rw [alistSet_cons_eq l v hb, alistKeys_cons, alistKeys_cons, ih, hpk]
      | false =>
          rw [alistSet_cons_ne l v hb, alistKeys_cons, alistKeys_cons, ih]

theorem alistGet_none_iff {α : Type} (l : List (String × α)) (k : String) :
    alistGet l k = none ↔ k ∉ alistKeys l := by
  induction l with
  | nil => simp [alistGet, alistKeys]
  | cons p l ih =>
      cases hb : p.1 == k with
      | true =>
          have hpk : p.1 = k := by simpa using hb
          rw [alistGet_cons_eq l hb, alistKeys_cons]
          simp [hpk]
      | false =>
          have hpk : ¬ p.1 = k := by simpa using hb
          rw [alistGet_cons_ne l hb, alistKeys_cons]
          simp [ih, Ne.symm hpk]

theorem alistGet_mem_keys {α : Type} {l : List (String × α)} {k : String}
    {v : α} (h : alistGet l k = some v) : k ∈ alistKeys l := by
  by_contra hk
  rw [← alistGet_none_iff] at hk
  rw [h] at hk
  exact Option.noConfusion hk

/-! ## Claim C3: duplicate connections are not suppressed -/

/-- The per-match connection contribution of one runner match. -/
def runnerConns (m : String × Option String) : List Connection :=
  match m.2 with
  | some cstr => parseConnections cstr m.1
  | none => []

theorem runnerStep_snd (acc : List (String × Block) × List Connection)
    (m : String × Option String) :
    (runnerStep acc m).2 = acc.2 ++ runnerConns m := by
  unfold runnerStep runnerConns
  cases m.2 with
  | none => simp
  | some cstr =>
      by_cases hc : cstr = ""
      · subst hc
        simp [parseConnections]
      · have h : (cstr == "") = false := by simpa using hc
        simp [h]

theorem extractRunners_connections (blocks : List (String × Block))
    (runnerMatches : List (String × Option String)) :
    (extractRunners blocks runnerMatches).2 =
      runnerMatches.flatMap runnerConns := by
  suffices h : ∀ (rm : List (String × Option String))
      (acc : List (String × Block) × List Connection),
      (rm.foldl runnerStep acc).2 = acc.2 ++ rm.flatMap runnerConns by
    simpa [extractRunners] using h runnerMatches (blocks, [])
  intro rm
  induction rm with
  | nil => intro acc; simp
  | cons m rm ih =>
      intro acc
      rw [List.foldl_cons, ih, runnerStep_snd]
      simp

/-- Every connection produced by parse_connections carries the literal
source channel out. -/
theorem parseConnections_source_out (s src : String) (c : Connection)
    (hc : c ∈ parseConnections s src) :
    c.source_block = src ∧ c.source_channel = "out" := by
  unfold parseConnections at hc
  by_cases h : s = ""
  · simp [h] at hc
  · rw [if_neg (by simpa using h)] at hc
    simp only [List.mem_flatMap, List.mem_map] at hc
    obtain ⟨part, _, r, _, hr⟩ := hc
    subst hr
    exact ⟨rfl, rfl⟩

/-- The flowgraph produced by parsing a file with one runner call
whose argument text is the two identical references to b.in. -/
def fgC3 : FlowGraph :=
  parseFileModel "g"
    [("a", Block.mkDefault "a" "SourceCWBlock" 1),
     ("b", Block.mkDefault "b" "SinkNullBlock" 2)]
    [("a", some "&b.in, &b.in")] []

/-- Counterexample to claim C3: the parsed flowgraph holds two
Connections with identical source block, target block, target channel
and channel index — nothing suppresses the duplicate. -/
theorem parse_duplicates_C3_counterexample :
    fgC3.connections =
      [⟨"a", "out", "b", "in", none⟩, ⟨"a", "out", "b", "in", none⟩] ∧
    ¬ fgC3.connections.Nodup := by
  constructor
  · rfl
  · decide

/-- Claim C3 amended: the extractor performs no duplicate suppression
at all — parse_file returns exactly one Connection per
channel-reference match of every runner call, concatenated in match
order, so textually identical references yield identical duplicate
Connections in the flowgraph. -/
theorem parse_no_duplicate_suppression_C3 (name : String)
    (blocks0 : List (String × Block))
    (runnerMatches : List (String × Option String))
    (memberDecls : List (String × String × String)) :
    (parseFileModel name blocks0 runnerMatches memberDecls).connections =
      runnerMatches.flatMap (fun m =>
        match m.2 with
        | some cstr =>
            (splitArguments cstr).flatMap (fun part =>
              (findChannelRefs part).map (fun r =>
                ⟨m.1, "out", r.block, r.channel, r.index⟩))
        | none => []) := by
  show (extractRunners blocks0 runnerMatches).2 = _
  rw [extractRunners_connections]
  congr 1
  funext m
  show runnerConns m = _
  unfold runnerConns
  cases m.2 with
  | none => rfl
  | some cstr =>
      show parseConnections cstr m.1 = _
      by_cases h : cstr = ""
      · subst h
        show parseConnections "" m.1 =
          (splitArguments "").flatMap _
        rw [show splitArguments "" = ([] : List String) from rfl]
        rfl
      · unfold parseConnections
        rw [if_neg (by simpa using h)]

/-! ## Validation framework (linter/validator.py) -/

/-- Embeds dataclass ValidationError of linter/validator.py. -/
structure ValidationError where
  type : String
  message : String
  file : String
  line : Nat
  column : Nat
  severity : String
  suggestion : Option String
deriving Repr, DecidableEq

/-- The expression joining a channel list for a suggestion text, with
the or-fallback for an empty join. -/
def joinCommaOr (l : List String) : String :=
  let j := String.intercalate ", " l
  if j == "" then "none" else j

/-- Error for a connection whose source block does not resolve
(InvalidConnectionRule.validate, first stanza). -/
def undefinedSourceError (severity fp : String) (conn : Connection) :
    ValidationError :=
  ⟨"invalid_connection",
   "Connection references undefined source block \x27" ++
     conn.source_block ++ "\x27",
   fp, 0, 0, severity,
   some ("Check that block \x27" ++ conn.source_block ++
     "\x27 is properly declared")⟩

/-- Error for a connection whose target block does not resolve
(InvalidConnectionRule.validate, second stanza). -/
def undefinedTargetError (severity fp : String) (conn : Connection) :
    ValidationError :=
  ⟨"invalid_connection",
   "Connection references undefined target block \x27" ++
     conn.target_block ++ "\x27",
   fp, 0, 0, severity,
   some ("Check that block \x27" ++ conn.target_block ++
     "\x27 is properly declared")⟩

/-- Source-output check of InvalidConnectionRule.validate: an error
when the source channel is not among the resolved source block's
outputs. -/
def sourceOutputErrors (severity fp : String) (conn : Connection)
    (source_block : Block) : List ValidationError :=
  if conn.source_channel ∈ source_block.outputs then []
  else
    [⟨"invalid_connection",
      "Block \x27" ++ conn.source_block ++
        "\x27 does not have output channel \x27" ++
        conn.source_channel ++ "\x27",
      fp, source_block.line, source_block.column, severity,
      some ("Available outputs: " ++ joinCommaOr source_block.outputs)⟩]

/-- The base names of the array-typed inputs: for every input whose
name holds an opening bracket, the prefix before the first bracket. -/
def baseChannels (inputs : List String) : List String :=
  (inputs.filter (fun ch => ch.data.contains '[')).map
    (fun ch => String.mk (ch.data.takeWhile (fun c => !(c == '['))))

/-- The three-way channel lookup of InvalidConnectionRule.validate: the
channel name itself, its indexed variant when the connection carries an
index, or the base name of some array-typed input. -/
def channelFound (conn : Connection) (target_block : Block) : Bool :=
  target_block.inputs.contains conn.target_channel ||
  (match conn.channel_index with
   | some i => target_block.inputs.contains
       (conn.target_channel ++ "[" ++ toString i ++ "]")
   | none => false) ||
  (baseChannels target_block.inputs).contains conn.target_channel

/-- Target-input check of InvalidConnectionRule.validate: an error when
the three-way lookup fails. -/
def targetInputErrors (severity fp : String) (conn : Connection)
    (target_block : Block) : List ValidationError :=
  if channelFound conn target_block then []
  else
    [⟨"invalid_connection",
      "Block \x27" ++ conn.target_block ++
        "\x27 does not have input channel \x27" ++
        conn.target_channel ++ "\x27",
      fp, target_block.line, target_block.column, severity,
      some ("Available inputs: " ++ joinCommaOr target_block.inputs)⟩]

/-- The loop body of InvalidConnectionRule.validate for one connection,
with the two continue statements modelled by early returns. -/
def connectionErrors (severity fp : String)
    (blocks : List (String × Block)) (conn : Connection) :
    List ValidationError :=
  match alistGet blocks conn.source_block with
  | none => [undefinedSourceError severity fp conn]
  | some source_block =>
      match alistGet blocks conn.target_block with
      | none => [undefinedTargetError severity fp conn]
      | some target_block =>
          sourceOutputErrors severity fp conn source_block ++
            targetInputErrors severity fp conn target_block

/-- Embeds InvalidConnectionRule.validate. -/
def invalidConnectionValidate (severity : String) (fg : FlowGraph)
    (fp : String) : List ValidationError :=
  fg.connections.flatMap (connectionErrors severity fp fg.blocks)

/-! ## Rule engine (RuleEngine of linter/validator.py) -/

/-- A registered rule as the engine sees it: its name (get_rule_name)
and its validate entry point, with a raised exception modelled as an
Except error carrying the exception text. -/
structure EngineRule where
  name : String
  run : FlowGraph → String → Except String (List ValidationError)

/-- The synthetic diagnostic RuleEngine.validate builds when a rule
raises. -/
def ruleErrorDiag (ruleName msg fp : String) : ValidationError :=
  ⟨"rule_error",
   "Rule \x27" ++ ruleName ++ "\x27 failed: " ++ msg,
   fp, 0, 0, "error", none⟩

/-- One iteration of the rule loop of RuleEngine.validate: the
try/except around one rule. -/
def ruleOutcome (fg : FlowGraph) (fp : String) (r : EngineRule) :
    List ValidationError :=
  match r.run fg fp with
  | .ok errs => errs
  | .error e => [ruleErrorDiag r.name e fp]

/-- Embeds RuleEngine.validate. -/
def engineValidate (rules : List EngineRule) (fg : FlowGraph)
    (fp : String) : List ValidationError :=
  rules.foldl (fun acc r => acc ++ ruleOutcome fg fp r) []

/-- The rule names of RuleEngine.rule_registry, in registration
order. -/
def ruleRegistryNames : List String :=
  ["missing_runner", "invalid_connection", "blockrunner_order",
   "multiple_connections", "unconnected_blocks", "duplicate_display_names"]

/-- A per-rule configuration mapping as configure_from_dict reads it:
the enabled and severity keys, each possibly absent. -/
structure RuleConfig where
  enabled : Option Bool
  severity : Option String
deriving Repr, DecidableEq

/-- Embeds RuleEngine.add_rule: the constructed rule instance is kept
only when its configured enabled flag (default true) holds. -/
def addRule (rules : List (String × RuleConfig)) (name : String)
    (cfg : RuleConfig) : List (String × RuleConfig) :=
  if cfg.enabled.getD true then rules ++ [(name, cfg)] else rules

/-- Embeds RuleEngine.add_rule_by_name: a registry hit constructs and
adds the rule, a miss raises ValueError. -/
def addRuleByName (rules : List (String × RuleConfig)) (name : String)
    (cfg : RuleConfig) : Except String (List (String × RuleConfig)) :=
  if name ∈ ruleRegistryNames then .ok (addRule rules name cfg)
  else .error ("Unknown rule: " ++ name)

/-- Embeds RuleEngine.configure_from_dict over the rules mapping of the
configuration document, in key order. -/
def configureFromDict (rulesConfig : List (String × RuleConfig)) :
    Except String (List (String × RuleConfig)) :=
  rulesConfig.foldlM (fun rules p =>
    if p.2.enabled.getD true then addRuleByName rules p.1 p.2
    else .ok rules) []

/-! ## Claim C4: invalid-connection rule and the empty channel set -/

/-- A flowgraph whose connection a.out to b.in resolves both blocks,
with the target block holding an entirely empty channel set. -/
def fgC4 : FlowGraph :=
  ⟨"g",
   [("a", { Block.mkDefault "a" "SourceCWBlock" 1 with outputs := ["out"] }),
    ("b", Block.mkDefault "b" "SinkNullBlock" 2)],
   [⟨"a", "out", "b", "in", none⟩]⟩

/-- Counterexample to claim C4: the target block's channel set is
entirely empty, yet the rule does emit a diagnostic for the
connection — there is no empty-set exemption in the code. -/
theorem invalid_connection_C4_counterexample :
    (alistGet fgC4.blocks "b").map Block.inputs = some [] ∧
    invalidConnectionValidate "error" fgC4 "f.cpp" =
      [⟨"invalid_connection",
        "Block \x27b\x27 does not have input channel \x27in\x27",
        "f.cpp", 2, 0, "error", some "Available inputs: none"⟩] :=
  ⟨rfl, rfl⟩

/-- The three-way channel lookup as a proposition. -/
theorem channelFound_iff (conn : Connection) (tb : Block) :
    channelFound conn tb = true ↔
      (conn.target_channel ∈ tb.inputs ∨
       (∃ i, conn.channel_index = some i ∧
          (conn.target_channel ++ "[" ++ toString i ++ "]") ∈ tb.inputs) ∨
       conn.target_channel ∈ baseChannels tb.inputs) := by
  unfold channelFound
  cases hidx : conn.channel_index with
  | none => simp [List.elem_iff]
  | some i => simp [List.elem_iff, or_assoc]

/-- Claim C4 amended: for a connection whose blocks resolve, the rule
emits a source diagnostic exactly when the source channel is absent
from the outputs, and a target diagnostic exactly when the channel is
absent, its indexed variant (when the connection carries an index) is
absent, and no array-typed input shares its base name. There is no
exemption for an entirely empty channel set: an empty outputs or
inputs set always produces the diagnostic. -/
theorem invalid_connection_rule_C4 (severity fp : String)
    (conn : Connection) (sb tb : Block) :
    (sourceOutputErrors severity fp conn sb = [] ↔
        conn.source_channel ∈ sb.outputs) ∧
    (targetInputErrors severity fp conn tb = [] ↔
        (conn.target_channel ∈ tb.inputs ∨
         (∃ i, conn.channel_index = some i ∧
            (conn.target_channel ++ "[" ++ toString i ++ "]") ∈ tb.inputs) ∨
         conn.target_channel ∈ baseChannels tb.inputs)) ∧
    (sb.outputs = [] → sourceOutputErrors severity fp conn sb ≠ []) ∧
    (tb.inputs = [] → targetInputErrors severity fp conn tb ≠ []) := by
  have hsrc : sourceOutputErrors severity fp conn sb = [] ↔
      conn.source_channel ∈ sb.outputs := by
    unfold sourceOutputErrors
    by_cases h : conn.source_channel ∈ sb.outputs <;> simp [h]
  have htgt : targetInputErrors severity fp conn tb = [] ↔
      (conn.target_channel ∈ tb.inputs ∨
       (∃ i, conn.channel_index = some i ∧
          (conn.target_channel ++ "[" ++ toString i ++ "]") ∈ tb.inputs) ∨
       conn.target_channel ∈ baseChannels tb.inputs) := by
    unfold targetInputErrors
    by_cases h : channelFound conn tb = true
    · simp [h, (channelFound_iff conn tb).mp h]
    · have h' : channelFound conn tb = false := by
        cases hc : channelFound conn tb
        · rfl
        · exact absurd hc h
      rw [h']
      simp only [Bool.false_eq_true, if_false]
      constructor
      · intro hcontr; exact absurd hcontr (by simp)
      · intro hp
        exact absurd ((channelFound_iff conn tb).mpr hp) h
  refine ⟨hsrc, htgt, ?_, ?_⟩
  · intro hempty hnil
    have := hsrc.mp hnil
    rw [hempty] at this
    exact List.not_mem_nil _ this
  · intro hempty hnil
    rcases htgt.mp hnil with h | ⟨i, _, h⟩ | h
    · rw [hempty] at h; exact List.not_mem_nil _ h
    · rw [hempty] at h; exact List.not_mem_nil _ h
    · rw [hempty] at h
      simp [baseChannels] at h

/-- Witness for claim C4 at a concrete input: the rule applied to the
connection of fgC4 and its resolved target block with empty inputs
does emit a diagnostic. -/
theorem invalid_connection_rule_C4_witness :
    targetInputErrors "error" "f.cpp" ⟨"a", "out", "b", "in", none⟩
      (Block.mkDefault "b" "SinkNullBlock" 2) ≠ [] :=
  (invalid_connection_rule_C4 "error" "f.cpp" ⟨"a", "out", "b", "in", none⟩
    (Block.mkDefault "a" "SourceCWBlock" 1)
    (Block.mkDefault "b" "SinkNullBlock" 2)).2.2.2 rfl

/-! ## Claim C9: configuration with unrecognized rule names -/

/-- Counterexample to claim C9: configure_from_dict on a configuration
holding one enabled unrecognized rule name raises ValueError instead
of skipping the name. -/
theorem configure_unknown_rule_C9_counterexample :
    configureFromDict [("bogus", ⟨none, none⟩)] =
      .error "Unknown rule: bogus" := rfl

/-- Claim C9 amended: configure_from_dict registers the recognized
enabled rules in key order and skips disabled entries, but it does not
skip enabled unrecognized names — those raise ValueError through
add_rule_by_name, so the call completes without raising only when
every enabled key is recognized. -/
theorem configure_from_dict_C9 (rulesConfig : List (String × RuleConfig))
    (h : ∀ p ∈ rulesConfig, p.2.enabled.getD true → p.1 ∈ ruleRegistryNames) :
    configureFromDict rulesConfig =
      .ok (rulesConfig.filter (fun p => p.2.enabled.getD true)) := by
  suffices haux : ∀ (l : List (String × RuleConfig))
      (acc : List (String × RuleConfig)),
      (∀ p ∈ l, p.2.enabled.getD true → p.1 ∈ ruleRegistryNames) →
      l.foldlM (fun rules p =>
        if p.2.enabled.getD true then addRuleByName rules p.1 p.2
        else .ok rules) acc =
      .ok (acc ++ l.filter (fun p => p.2.enabled.getD true)) by
    simpa [configureFromDict] using haux rulesConfig [] h
  intro l
  induction l with
  | nil =>
      intro acc _
      simp only [List.foldlM_nil, List.filter_nil, List.append_nil]
      rfl
  | cons p l ih =>
      intro acc hl
      by_cases hp : p.2.enabled.getD true
      · have hreg : p.1 ∈ ruleRegistryNames := hl p (by simp) hp
        have hstep : addRuleByName acc p.1 p.2 =
            .ok (acc ++ [(p.1, p.2)]) := by
          unfold addRuleByName addRule
          rw [if_pos hreg, if_pos hp]
        simp only [List.foldlM_cons, if_pos hp, hstep]
        rw [show (Except.ok (acc ++ [(p.1, p.2)]) >>= fun acc' =>
            List.foldlM _ acc' l : Except String _) =
            List.foldlM _ (acc ++ [(p.1, p.2)]) l from rfl]
        rw [ih (acc ++ [(p.1, p.2)]) (fun q hq => hl q (by simp [hq]))]
        rw [List.filter_cons_of_pos (by simpa using hp)]
        simp
      · simp only [List.foldlM_cons, if_neg hp]
        rw [show (Except.ok acc >>= fun acc' =>
            List.foldlM _ acc' l : Except String _) =
            List.foldlM _ acc l from rfl]
        rw [ih acc (fun q hq => hl q (by simp [hq]))]
        rw [List.filter_cons_of_neg (by simpa using hp)]

/-- Witness for claim C9 at a concrete input: one recognized enabled
rule and one recognized disabled rule configure successfully, with
only the enabled one registered. -/
theorem configure_from_dict_C9_witness :
    configureFromDict
      [("missing_runner", ⟨some true, none⟩),
       ("invalid_connection", ⟨some false, none⟩)] =
      .ok [("missing_runner", ⟨some true, none⟩)] :=
  configure_from_dict_C9
    [("missing_runner", ⟨some true, none⟩),
     ("invalid_connection", ⟨some false, none⟩)]
    (by decide)

/-! ## Claim C1: engine fault isolation -/

theorem engineValidate_eq_flatten (rules : List EngineRule) (fg : FlowGraph)
    (fp : String) :
    engineValidate rules fg fp = (rules.map (ruleOutcome fg fp)).flatten := by
  suffices haux : ∀ (l : List EngineRule) (acc : List ValidationError),
      l.foldl (fun acc r => acc ++ ruleOutcome fg fp r) acc =
        acc ++ (l.map (ruleOutcome fg fp)).flatten by
    simpa [engineValidate] using haux rules []
  intro l
  induction l with
  | nil => intro acc; simp
  | cons r l ih =>
      intro acc
      rw [List.foldl_cons, ih]
      simp

theorem map_run_ok_outcome (fg : FlowGraph) (fp : String) :
    ∀ (rs : List EngineRule) (outs : List (List ValidationError)),
      rs.map (fun r => r.run fg fp) = outs.map Except.ok →
      rs.map (ruleOutcome fg fp) = outs := by
  intro rs
  induction rs with
  | nil =>
      intro outs h
      cases outs with
      | nil => rfl
      | cons o os => simp at h
  | cons r rs ih =>
      intro outs h
      cases outs with
      | nil => simp at h
      | cons o os =>
          simp only [List.map_cons, List.cons.injEq] at h
          simp only [List.map_cons, ih os h.2, List.cons.injEq, and_true]
          unfold ruleOutcome
          rw [h.1]

/-- Claim C1: when one registered rule raises and every other rule
returns normally, RuleEngine.validate still returns the diagnostics of
all the other rules concatenated in registration order, with exactly
one synthetic rule_error diagnostic, in the failing rule's slot, whose
message names the failing rule; the run is never aborted. -/
theorem rule_engine_fault_isolation_C1
    (r1 r2 : List EngineRule) (bad : EngineRule) (fg : FlowGraph)
    (fp msg : String) (outs1 outs2 : List (List ValidationError))
    (hbad : bad.run fg fp = .error msg)
    (h1 : r1.map (fun r => r.run fg fp) = outs1.map Except.ok)
    (h2 : r2.map (fun r => r.run fg fp) = outs2.map Except.ok) :
    engineValidate (r1 ++ bad :: r2) fg fp =
      outs1.flatten ++ ruleErrorDiag bad.name msg fp :: outs2.flatten ∧
    ((∀ es ∈ outs1 ++ outs2, ∀ d ∈ es, d.type ≠ "rule_error") →
      (engineValidate (r1 ++ bad :: r2) fg fp).filter
          (fun d => d.type == "rule_error") =
        [ruleErrorDiag bad.name msg fp]) := by
  have hout : engineValidate (r1 ++ bad :: r2) fg fp =
      outs1.flatten ++ ruleErrorDiag bad.name msg fp :: outs2.flatten := by
    rw [engineValidate_eq_flatten, List.map_append, List.map_cons,
      map_run_ok_outcome fg fp r1 outs1 h1,
      map_run_ok_outcome fg fp r2 outs2 h2]
    rw [show ruleOutcome fg fp bad = [ruleErrorDiag bad.name msg fp] by
      unfold ruleOutcome; rw [hbad]]
    rw [List.flatten_append, List.flatten_cons]
    simp
  refine ⟨hout, ?_⟩
  intro hclean
  rw [hout, List.filter_append, List.filter_cons]
  have hflat : ∀ (L : List (List ValidationError)),
      (∀ es ∈ L, ∀ d ∈ es, d.type ≠ "rule_error") →
      L.flatten.filter (fun d => d.type == "rule_error") = [] := by
    intro L hL
    rw [List.filter_eq_nil]
    intro d hd
    obtain ⟨es, hes, hdes⟩ := List.mem_flatten.mp hd
    simpa using hL es hes d hdes
  rw [hflat outs1 (fun es hes => hclean es (List.mem_append_left _ hes)),
    hflat outs2 (fun es hes => hclean es (List.mem_append_right _ hes))]
  simp [ruleErrorDiag]

/-- Witness for claim C1 at concrete inputs: a rule that always raises
sandwiched between two well-behaved rules. -/
theorem rule_engine_fault_isolation_C1_witness :
    engineValidate
      [⟨"missing_runner", fun _ _ => .ok []⟩,
       ⟨"unconnected_blocks", fun _ _ => .error "boom"⟩,
       ⟨"multiple_connections", fun _ _ =>
          .ok [⟨"multiple_connections", "m", "f.cpp", 0, 0, "error", none⟩]⟩]
      ⟨"g", [], []⟩ "f.cpp" =
      [ruleErrorDiag "unconnected_blocks" "boom" "f.cpp",
       ⟨"multiple_connections", "m", "f.cpp", 0, 0, "error", none⟩] ∧
    (engineValidate
      [⟨"missing_runner", fun _ _ => .ok []⟩,
       ⟨"unconnected_blocks", fun _ _ => .error "boom"⟩,
       ⟨"multiple_connections", fun _ _ =>
          .ok [⟨"multiple_connections", "m", "f.cpp", 0, 0, "error", none⟩]⟩]
      ⟨"g", [], []⟩ "f.cpp").filter (fun d => d.type == "rule_error") =
      [ruleErrorDiag "unconnected_blocks" "boom" "f.cpp"] := by
  have h := rule_engine_fault_isolation_C1
    [⟨"missing_runner", fun _ _ => .ok []⟩]
    [⟨"multiple_connections", fun _ _ =>
        .ok [⟨"multiple_connections", "m", "f.cpp", 0, 0, "error", none⟩]⟩]
    ⟨"unconnected_blocks", fun _ _ => .error "boom"⟩
    ⟨"g", [], []⟩ "f.cpp" "boom"
    [[]] [[⟨"multiple_connections", "m", "f.cpp", 0, 0, "error", none⟩]]
    rfl rfl rfl
  exact ⟨h.1, h.2 (by decide)⟩

/-! ## Claim C10: every extracted connection sources the channel out -/

/-- The source-channel membership a block table guarantees for one
connection: any resolution of the connection's source block lists the
connection's source channel among its outputs. -/
def outHolds (bs : List (String × Block)) (conn : Connection) : Prop :=
  ∀ b, alistGet bs conn.source_block = some b →
    conn.source_channel ∈ b.outputs

theorem inferSourceStep_back (bs : List (String × Block))
    (conn : Connection) (k : String) (b' : Block)
    (h : alistGet (inferSourceStep bs conn) k = some b') :
    ∃ b, alistGet bs k = some b ∧ b.outputs ⊆ b'.outputs := by
  unfold inferSourceStep at h
  split at h
  next sb hs =>
    split at h
    next => exact ⟨b', h, fun x hx => hx⟩
    next hmem =>
      rw [alistGet_alistSet] at h
      by_cases hk : k = conn.source_block
      · rw [if_pos hk, hs] at h
        simp only [Option.map_some', Option.some.injEq] at h
        refine ⟨sb, by rw [hk]; exact hs, ?_⟩
        rw [← h]
        exact List.subset_append_left _ _
      · rw [if_neg hk] at h
        exact ⟨b', h, fun x hx => hx⟩
  next => exact ⟨b', h, fun x hx => hx⟩

theorem inferTargetStep_back (bs : List (String × Block))
    (conn : Connection) (k : String) (b' : Block)
    (h : alistGet (inferTargetStep bs conn) k = some b') :
    ∃ b, alistGet bs k = some b ∧ b.outputs ⊆ b'.outputs := by
  unfold inferTargetStep at h
  split at h
  next tb ht =>
    have hset : ∀ (nb : Block), nb.outputs = tb.outputs →
        alistGet (alistSet bs conn.target_block nb) k = some b' →
        ∃ b, alistGet bs k = some b ∧ b.outputs ⊆ b'.outputs := by
      intro nb hnb hget
      rw [alistGet_alistSet] at hget
      by_cases hk : k = conn.target_block
      · rw [if_pos hk, ht] at hget
        simp only [Option.map_some', Option.some.injEq] at hget
        refine ⟨tb, by rw [hk]; exact ht, ?_⟩
        rw [← hget, hnb]
        exact fun x hx => hx
      · rw [if_neg hk] at hget
        exact ⟨b', hget, fun x hx => hx⟩
    split at h
    next => exact ⟨b', h, fun x hx => hx⟩
    next =>
      split at h
      next =>
        split at h
        next =>
          exact hset { tb with inputs := tb.inputs ++ [conn.target_channel] }
            rfl h
        next => exact ⟨b', h, fun x hx => hx⟩
      next =>
        exact hset { tb with inputs := tb.inputs ++ [conn.target_channel] }
          rfl h
  next => exact ⟨b', h, fun x hx => hx⟩

theorem inferSourceStep_self (bs : List (String × Block))
    (conn : Connection) (b' : Block)
    (h : alistGet (inferSourceStep bs conn) conn.source_block = some b') :
    conn.source_channel ∈ b'.outputs := by
  unfold inferSourceStep at h
  split at h
  next sb hs =>
    split at h
    next hmem =>
      rw [hs] at h
      injection h with h
      rw [← h]
      exact hmem
    next hmem =>
      rw [alistGet_alistSet, if_pos rfl, hs] at h
      simp only [Option.map_some', Option.some.injEq] at h
      rw [← h]
      simp
  next hs =>
    rw [hs] at h
    exact absurd h (by simp)

theorem inferStep_self (bs : List (String × Block)) (conn : Connection) :
    outHolds (inferStep bs conn) conn := by
  intro b' h
  obtain ⟨b, hb, hsub⟩ := inferTargetStep_back _ conn _ _ h
  exact hsub (inferSourceStep_self bs conn b hb)

theorem inferStep_preserves (bs : List (String × Block))
    (c c' : Connection) (h : outHolds bs c) :
    outHolds (inferStep bs c') c := by
  intro b' hb'
  obtain ⟨b1, hb1, hsub1⟩ := inferTargetStep_back _ c' _ _ hb'
  obtain ⟨b0, hb0, hsub0⟩ := inferSourceStep_back _ c' _ _ hb1
  exact hsub1 (hsub0 (h b0 hb0))

theorem outHolds_foldl_preserve (conns : List Connection)
    (bs : List (String × Block)) (c : Connection) (h : outHolds bs c) :
    outHolds (conns.foldl inferStep bs) c := by
  induction conns generalizing bs with
  | nil => exact h
  | cons c' rest ih =>
      rw [List.foldl_cons]
      exact ih _ (inferStep_preserves bs c c' h)

theorem outHolds_foldl (conns : List Connection)
    (bs : List (String × Block)) (c : Connection) (hc : c ∈ conns) :
    outHolds (conns.foldl inferStep bs) c := by
  induction conns generalizing bs with
  | nil => exact absurd hc (List.not_mem_nil c)
  | cons c' rest ih =>
      rw [List.foldl_cons]
      rcases List.mem_cons.mp hc with hc' | hc'
      · subst hc'
        exact outHolds_foldl_preserve rest _ c (inferStep_self bs c)
      · exact ih (inferStep bs c') hc'

/-- Claim C10: every connection the extractor produces carries the
literal source channel out; whenever its source block resolves to a
block of the flowgraph, out is among that block's outputs; and
consequently the does-not-have-output-channel branch of the
invalid-connection rule emits nothing on extractor-produced
flowgraphs. -/
theorem extractor_source_out_C10 (name : String)
    (blocks0 : List (String × Block))
    (runnerMatches : List (String × Option String))
    (memberDecls : List (String × String × String)) :
    (∀ c ∈ (parseFileModel name blocks0 runnerMatches
        memberDecls).connections, c.source_channel = "out") ∧
    (∀ c ∈ (parseFileModel name blocks0 runnerMatches
        memberDecls).connections, ∀ b,
      alistGet (parseFileModel name blocks0 runnerMatches
        memberDecls).blocks c.source_block = some b → "out" ∈ b.outputs) ∧
    (∀ (severity fp : String),
      ∀ c ∈ (parseFileModel name blocks0 runnerMatches
        memberDecls).connections, ∀ b,
      alistGet (parseFileModel name blocks0 runnerMatches
        memberDecls).blocks c.source_block = some b →
      sourceOutputErrors severity fp c b = []) := by
  have hout : ∀ c ∈ (parseFileModel name blocks0 runnerMatches
      memberDecls).connections, c.source_channel = "out" := by
    intro c hc
    have : c ∈ (extractRunners blocks0 runnerMatches).2 := hc
    rw [extractRunners_connections] at this
    obtain ⟨m, _, hm⟩ := List.mem_flatMap.mp this
    unfold runnerConns at hm
    cases hm2 : m.2 with
    | none => rw [hm2] at hm; exact absurd hm (by simp)
    | some cstr =>
        rw [hm2] at hm
        exact (parseConnections_source_out cstr m.1 c hm).2
  have hmem : ∀ c ∈ (parseFileModel name blocks0 runnerMatches
      memberDecls).connections, ∀ b,
      alistGet (parseFileModel name blocks0 runnerMatches
        memberDecls).blocks c.source_block = some b → "out" ∈ b.outputs := by
    intro c hc b hb
    have hholds := outHolds_foldl (extractRunners blocks0 runnerMatches).2
      (extractChannelMembers (extractRunners blocks0 runnerMatches).1
        memberDecls) c hc
    have := hholds b hb
    rw [hout c hc] at this
    exact this
  refine ⟨hout, hmem, ?_⟩
  intro severity fp c hc b hb
  unfold sourceOutputErrors
  rw [if_pos ?_]
  rw [hout c hc]
  exact hmem c hc b hb

/-- Witness for claim C10 at a concrete input: parsing one runner call
wiring a to b.in yields a flowgraph on which the source-output branch
emits nothing for the resolved source block. -/
theorem extractor_source_out_C10_witness :
    sourceOutputErrors "error" "f.cpp" ⟨"a", "out", "b", "in", none⟩
      { Block.mkDefault "a" "SourceCWBlock" 1 with
          outputs := ["out"], has_runner := true, in_flowgraph := true } =
      [] :=
  (extractor_source_out_C10 "g"
    [("a", Block.mkDefault "a" "SourceCWBlock" 1),
     ("b", Block.mkDefault "b" "SinkNullBlock" 2)]
    [("a", some "&b.in")] []).2.2 "error" "f.cpp"
    ⟨"a", "out", "b", "in", none⟩ (by decide)
    { Block.mkDefault "a" "SourceCWBlock" 1 with
        outputs := ["out"], has_runner := true, in_flowgraph := true }
    (by decide)

/-! ## Positioned graph model (viz/graph_builder.py) -/

/-- Embeds dataclass Node of viz/graph_builder.py, with floats as
rationals. -/
structure Node where
  id : String
  label : String
  type : String
  x : ℚ
  y : ℚ
  width : ℚ
  height : ℚ
  inputs : List String
  outputs : List String
deriving Repr, DecidableEq

/-- A Node with the dataclass defaults for the positional fields. -/
def Node.mkDefault (id : String) : Node :=
  ⟨id, id, "T", 0, 0, 120, 60, [], []⟩

/-- Embeds dataclass Edge of viz/graph_builder.py. -/
structure Edge where
  id : String
  source : String
  target : String
  source_port : Option String
  target_port : Option String
  label : Option String
deriving Repr, DecidableEq

/-- Embeds dataclass Graph of viz/graph_builder.py. -/
structure Graph where
  nodes : List (String × Node)
  edges : List Edge
  width : ℚ
  height : ℚ
deriving Repr, DecidableEq

/-! ## Shared BFS worklist
(the identical queue loops of GraphBuilder.calculate_node_depths and
HierarchicalLayout.assign_layers). The loop is given fuel; the fuel
chosen by the callers is proven sufficient, so the out-of-fuel value
never occurs. -/

/-- The children enqueued when visiting a node: every edge out of it
whose target is not yet visited, at depth one further. The visited set
already holds the node itself, as in the source where visited.add runs
before the scan. -/
def bfsChildren (edges : List Edge) (visited : List String)
    (nodeId : String) (layer : Nat) : List (String × Nat) :=
  (edges.filter (fun e =>
    e.source == nodeId && !(visited.contains e.target))).map
    (fun e => (e.target, layer + 1))

/-- The queue loop: pop, skip when visited, otherwise record the layer
and enqueue the children. -/
def bfsLoop (edges : List Edge) :
    Nat → List String → List (String × Nat) → List (String × Nat) →
    Option (List (String × Nat))
  | _, _, [], acc => some acc
  | 0, _, _ :: _, _ => none
  | fuel + 1, visited, (n, l) :: rest, acc =>
      if visited.contains n then bfsLoop edges fuel visited rest acc
      else bfsLoop edges fuel (n :: visited)
        (rest ++ bfsChildren edges (n :: visited) n l) (acc ++ [(n, l)])

/-- Number of identifiers not yet visited. -/
def unvisitedCount (allIds visited : List String) : Nat :=
  (allIds.filter (fun x => !(visited.contains x))).length

/-- Sufficient fuel for the loop from a fresh visited set. -/
def bfsFuel (edges : List Edge) (allIds : List String)
    (queue : List (String × Nat)) : Nat :=
  queue.length + unvisitedCount allIds [] * (edges.length + 1) + 1

/-! ## Graph builder (GraphBuilder.build and helpers) -/

/-- The incoming-edge counting loop of calculate_node_depths, with the
get-with-default read: a target absent from the dictionary is added as
a fresh key. -/
def calcIncoming (nodeKeys : List String) (edges : List Edge) :
    List (String × Nat) :=
  edges.foldl (fun inc e =>
    match alistGet inc e.target with
    | some c => alistSet inc e.target (c + 1)
    | none => inc ++ [(e.target, 1)])
    (nodeKeys.map (fun k => (k, 0)))

/-- Maximum of a list of naturals, zero on empty; agrees with the
built-in max on the non-empty lists it is applied to. -/
def maxValNat (l : List Nat) : Nat := l.foldl max 0

/-- The per-node default-assignment loop closing both BFS passes: a
key not yet in the dictionary is appended with the given value. -/
def insertMissing (v : Nat) (nl : List (String × Nat)) (k : String) :
    List (String × Nat) :=
  if k ∈ alistKeys nl then nl else nl ++ [(k, v)]

/-- Embeds GraphBuilder.calculate_node_depths: roots are the keys with
zero incoming count, a BFS assigns depths, and every unvisited node of
the graph gets depth zero. The getD branch is dead: the fuel is proven
sufficient below. -/
def calculateNodeDepths (g : Graph) : List (String × Nat) :=
  let roots := ((calcIncoming (alistKeys g.nodes) g.edges).filter
    (fun p => p.2 == 0)).map (fun p => p.1)
  let queue := roots.map (fun r => (r, 0))
  let allIds := alistKeys g.nodes ++ g.edges.map (fun e => e.target)
  let d := (bfsLoop g.edges (bfsFuel g.edges allIds queue) [] queue []).getD []
  (alistKeys g.nodes).foldl (insertMissing 0) d

/-- Embeds GraphBuilder.calculate_height. -/
def calculateHeight (g : Graph) : ℚ :=
  let depths := calculateNodeDepths g
  let maxDepth := if depths.isEmpty then 1
    else maxValNat (depths.map (fun p => p.2))
  max 600 (((maxDepth : ℚ) + 1) * 150)

/-- Embeds GraphBuilder.make_edge_label. -/
def makeEdgeLabel (conn : Connection) : Option String :=
  if conn.source_channel != "" && conn.target_channel != "" then
    match conn.channel_index with
    | some i => some (conn.target_channel ++ "[" ++ toString i ++ "]")
    | none => some conn.target_channel
  else none

/-- Embeds GraphBuilder.build. The builder instance state is the edge
counter, taken and returned explicitly; each connection in order gets
the id edge_(counter + i) and the counter advances by the connection
count. -/
def buildGraph (counter : Nat) (fg : FlowGraph) : Graph × Nat :=
  let nodes := fg.blocks.map (fun p =>
    (p.1, (⟨p.1, p.1 ++ "\\n(" ++ p.2.type ++ ")", p.2.type, 0, 0, 120, 60,
      p.2.inputs, p.2.outputs⟩ : Node)))
  let edges := fg.connections.enum.map (fun q =>
    (⟨"edge_" ++ toString (counter + q.1), q.2.source_block,
      q.2.target_block, some q.2.source_channel, some q.2.target_channel,
      makeEdgeLabel q.2⟩ : Edge))
  let g0 : Graph := ⟨nodes, edges, 800, 600⟩
  let g1 := if nodes.isEmpty then g0
    else { g0 with width := max 800 ((nodes.length : ℚ) * 150),
                   height := max 600 (calculateHeight g0) }
  (g1, counter + fg.connections.length)

/-! ## Layered layout (HierarchicalLayout.assign_layers, viz/layout.py) -/

/-- The incoming-edge dictionary of assign_layers: keyed by the graph
nodes only, so an edge whose target is not a node raises KeyError. -/
def buildIncoming (nodeKeys : List String) (edges : List Edge) :
    Except String (List (String × List Edge)) :=
  edges.foldlM (fun inc e =>
    match alistGet inc e.target with
    | some lst => .ok (alistSet inc e.target (lst ++ [e]))
    | none => .error ("KeyError: " ++ e.target))
    (nodeKeys.map (fun k => (k, ([] : List Edge))))

/-- The BFS phase of assign_layers: sources are the nodes with no
incoming edges. The out-of-fuel branch is dead: whenever the incoming
dictionary builds, every queue entry is a known identifier and the
fuel bound suffices. -/
def assignLayersBFS (g : Graph) : Except String (List (String × Nat)) :=
  match buildIncoming (alistKeys g.nodes) g.edges with
  | .error e => .error e
  | .ok incoming =>
      let sources := (incoming.filter (fun p => p.2.isEmpty)).map
        (fun p => p.1)
      let queue := sources.map (fun n => (n, 0))
      let allIds := alistKeys g.nodes ++ g.edges.map (fun e => e.target)
      match bfsLoop g.edges (bfsFuel g.edges allIds queue) [] queue [] with
      | some nodeLayers => .ok nodeLayers
      | none => .error "fuel"

/-- Embeds HierarchicalLayout.assign_layers up to the per-node layer
map: after the BFS, every unvisited node of the graph is placed at
max_layer + 1. -/
def assignLayersCore (g : Graph) : Except String (List (String × Nat)) :=
  match assignLayersBFS g with
  | .error e => .error e
  | .ok nodeLayers =>
      let maxLayer := if nodeLayers.isEmpty then 0
        else maxValNat (nodeLayers.map (fun p => p.2))
      .ok ((alistKeys g.nodes).foldl (insertMissing (maxLayer + 1))
        nodeLayers)

/-- The final grouping of assign_layers: the layer-keyed dictionary of
node lists, in first-encounter order. -/
def groupLayers (nodeLayers : List (String × Nat)) :
    List (Nat × List String) :=
  nodeLayers.foldl (fun layers p =>
    if (layers.find? (fun q => q.1 == p.2)).isSome then
      layers.map (fun q => if q.1 == p.2 then (q.1, q.2 ++ [p.1]) else q)
    else layers ++ [(p.2, [p.1])]) []

/-- Embeds HierarchicalLayout.assign_layers. -/
def assignLayers (g : Graph) : Except String (List (Nat × List String)) :=
  match assignLayersCore g with
  | .error e => .error e
  | .ok nodeLayers => .ok (groupLayers nodeLayers)

/-! ## Force-directed layout (ForceDirectedLayout.apply, viz/layout.py)

Coordinates are rationals; math.sqrt, not exactly representable on
rationals, is a parameter of the embedding (the concrete witnesses
instantiate it with a function that agrees with math.sqrt at every
point those runs evaluate, namely zero), and the outcome of the random
position initialization is the initPos parameter. -/

/-- The four layout constants of ForceDirectedLayout. -/
structure ForceParams where
  iterations : Nat
  spring_constant : ℚ
  repulsion_constant : ℚ
  damping : ℚ
deriving Repr, DecidableEq

/-- The constructor defaults of ForceDirectedLayout. -/
def defaultForceParams : ForceParams := ⟨100, 1/10, 5000, 17/20⟩

/-- In-place accumulation into the forces dictionary. The none branch
is dead: the dictionary is initialized with every node key. -/
def forcesAdd (f : List (String × (ℚ × ℚ))) (id : String) (dx dy : ℚ) :
    List (String × (ℚ × ℚ)) :=
  match alistGet f id with
  | some v => alistSet f id (v.1 + dx, v.2 + dy)
  | none => f

/-- The inner loop of the repulsion pass: the pairs of one node with
every later node; a zero distance contributes nothing (the dist > 0
guard). -/
def repulsionInner (sqrt : ℚ → ℚ) (K : ℚ) (id1 : String) (n1 : Node)
    (rest : List (String × Node)) (f : List (String × (ℚ × ℚ))) :
    List (String × (ℚ × ℚ)) :=
  rest.foldl (fun f p =>
    let dx := p.2.x - n1.x
    let dy := p.2.y - n1.y
    let dist := sqrt (dx * dx + dy * dy)
    if dist > 0 then
      let force := K / (dist * dist)
      let fx := force * dx / dist
      let fy := force * dy / dist
      forcesAdd (forcesAdd f id1 (-fx) (-fy)) p.1 fx fy
    else f) f

/-- The repulsion double loop over all unordered node pairs. -/
def repulsionPass (sqrt : ℚ → ℚ) (K : ℚ) :
    List (String × Node) → List (String × (ℚ × ℚ)) →
    List (String × (ℚ × ℚ))
  | [], f => f
  | (id1, n1) :: rest, f =>
      repulsionPass sqrt K rest (repulsionInner sqrt K id1 n1 rest f)

/-- One edge of the attraction pass; the node dictionary reads raise
KeyError on an unresolved endpoint. -/
def attractionStep (sqrt : ℚ → ℚ) (S : ℚ) (nodes : List (String × Node))
    (f : List (String × (ℚ × ℚ))) (e : Edge) :
    Except String (List (String × (ℚ × ℚ))) :=
  match alistGet nodes e.source with
  | none => .error ("KeyError: " ++ e.source)
  | some n1 =>
      match alistGet nodes e.target with
      | none => .error ("KeyError: " ++ e.target)
      | some n2 =>
          let dx := n2.x - n1.x
          let dy := n2.y - n1.y
          let dist := sqrt (dx * dx + dy * dy)
          if dist > 0 then
            let force := S * dist
            let fx := force * dx / dist
            let fy := force * dy / dist
            .ok (forcesAdd (forcesAdd f e.source fx fy) e.target (-fx) (-fy))
          else .ok f

/-- The attraction pass over all edges. -/
def attractionPass (sqrt : ℚ → ℚ) (S : ℚ) (nodes : List (String × Node))
    (edges : List Edge) (f : List (String × (ℚ × ℚ))) :
    Except String (List (String × (ℚ × ℚ))) :=
  edges.foldlM (attractionStep sqrt S nodes) f

/-- The x clamp: max(50, min(750, x)). -/
def clampX (x : ℚ) : ℚ := max 50 (min 750 x)

/-- The y clamp: max(50, min(550, y)). -/
def clampY (y : ℚ) : ℚ := max 50 (min 550 y)

/-- The position-update loop: apply the damped force and clamp into
bounds. The getD is dead code: the forces dictionary holds every node
key. -/
def applyForcesPass (damping : ℚ) (f : List (String × (ℚ × ℚ)))
    (nodes : List (String × Node)) : List (String × Node) :=
  nodes.map (fun p =>
    let fv := (alistGet f p.1).getD (0, 0)
    let x := p.2.x + fv.1 * damping
    let y := p.2.y + fv.2 * damping
    (p.1, { p.2 with x := clampX x, y := clampY y }))

/-- One simulation iteration of ForceDirectedLayout.apply. -/
def forceIteration (sqrt : ℚ → ℚ) (P : ForceParams) (g : Graph) :
    Except String Graph :=
  let forces0 := g.nodes.map (fun p => (p.1, ((0 : ℚ), (0 : ℚ))))
  let f1 := repulsionPass sqrt P.repulsion_constant g.nodes forces0
  match attractionPass sqrt P.spring_constant g.nodes g.edges f1 with
  | .error e => .error e
  | .ok f2 => .ok { g with nodes := applyForcesPass P.damping f2 g.nodes }

/-- The fixed-count iteration loop. -/
def forceLoop (sqrt : ℚ → ℚ) (P : ForceParams) :
    Nat → Graph → Except String Graph
  | 0, g => .ok g
  | n + 1, g =>
      match forceLoop sqrt P n g with
      | .error e => .error e
      | .ok g' => forceIteration sqrt P g'

/-- Embeds ForceDirectedLayout.apply: early return on an empty node
set, then the random initialization (its outcome given by initPos),
then the iterations. -/
def forceDirectedApply (sqrt : ℚ → ℚ) (P : ForceParams)
    (initPos : String → ℚ × ℚ) (g : Graph) : Except String Graph :=
  if g.nodes.isEmpty then .ok g
  else
    forceLoop sqrt P P.iterations
      { g with nodes := g.nodes.map (fun p =>
          (p.1, { p.2 with x := (initPos p.1).1, y := (initPos p.1).2 })) }

/-! ## Claim C2: which blocks become nodes, and the edge bijection -/

/-- A flowgraph with one block that no wiring construct references. -/
def fgC2 : FlowGraph := ⟨"g", [("a", Block.mkDefault "a" "GainBlock" 1)], []⟩

/-- Counterexample to claim C2: block a is unwired — in_flowgraph is
false and no connection references it — yet build creates a Node for
it, so the node set is not the set of wired blocks. -/
theorem graph_builder_wired_C2_counterexample :
    ((buildGraph 0 fgC2).1.nodes.map Prod.fst) = ["a"] ∧
    (alistGet fgC2.blocks "a").map Block.in_flowgraph = some false ∧
    fgC2.connections = [] :=
  ⟨rfl, rfl, rfl⟩

/-- Claim C2 amended: build creates one Node per block of the
FlowGraph, wired or not, in block order, and exactly one Edge per
Connection, in connection order, carrying that connection's endpoints,
ports and label. -/
theorem graph_builder_build_C2 (counter : Nat) (fg : FlowGraph) :
    alistKeys (buildGraph counter fg).1.nodes = alistKeys fg.blocks ∧
    (buildGraph counter fg).1.edges.length = fg.connections.length ∧
    (buildGraph counter fg).1.edges.map (fun e =>
        (e.source, e.target, e.source_port, e.target_port, e.label)) =
      fg.connections.map (fun c =>
        (c.source_block, c.target_block, some c.source_channel,
         some c.target_channel, makeEdgeLabel c)) := by
  have hnodes : (buildGraph counter fg).1.nodes = fg.blocks.map (fun p =>
      (p.1, (⟨p.1, p.1 ++ "\\n(" ++ p.2.type ++ ")", p.2.type, 0, 0, 120, 60,
        p.2.inputs, p.2.outputs⟩ : Node))) := by
    cases hc : (fg.blocks.map (fun p =>
        (p.1, (⟨p.1, p.1 ++ "\\n(" ++ p.2.type ++ ")", p.2.type, 0, 0, 120,
          60, p.2.inputs, p.2.outputs⟩ : Node)))).isEmpty <;>
      simp only [buildGraph, hc, if_true, if_false, Bool.false_eq_true]
  have hedges : (buildGraph counter fg).1.edges = fg.connections.enum.map
      (fun q => (⟨"edge_" ++ toString (counter + q.1), q.2.source_block,
        q.2.target_block, some q.2.source_channel, some q.2.target_channel,
        makeEdgeLabel q.2⟩ : Edge)) := by
    cases hc : (fg.blocks.map (fun p =>
        (p.1, (⟨p.1, p.1 ++ "\\n(" ++ p.2.type ++ ")", p.2.type, 0, 0, 120,
          60, p.2.inputs, p.2.outputs⟩ : Node)))).isEmpty <;>
      simp only [buildGraph, hc, if_true, if_false, Bool.false_eq_true]
  refine ⟨?_, ?_, ?_⟩
  · rw [hnodes]
    simp [alistKeys, List.map_map]
  · rw [hedges]
    simp
  · rw [hedges, List.map_map]
    have : ((fun e : Edge =>
        (e.source, e.target, e.source_port, e.target_port, e.label)) ∘
        (fun q : Nat × Connection =>
          (⟨"edge_" ++ toString (counter + q.1), q.2.source_block,
            q.2.target_block, some q.2.source_channel,
            some q.2.target_channel, makeEdgeLabel q.2⟩ : Edge))) =
        ((fun c : Connection =>
          (c.source_block, c.target_block, some c.source_channel,
           some c.target_channel, makeEdgeLabel c)) ∘ Prod.snd) := by
      funext q
      rfl
    rw [this, ← List.map_map, List.enum_map_snd]

/-! ## Claim C5: termination and totality of the layer assignment -/

theorem length_filter_mono {α : Type} (p q : α → Bool)
    (himp : ∀ a, p a = true → q a = true) (l : List α) :
    (l.filter p).length ≤ (l.filter q).length := by
  induction l with
  | nil => simp
  | cons a l ih =>
      rw [List.filter_cons, List.filter_cons]
      cases hpa : p a with
      | true =>
          have hqa := himp a hpa
          simp only [hpa, hqa, eq_self_iff_true, if_true, List.length_cons]
          exact Nat.succ_le_succ ih
      | false =>
          simp only [hpa, Bool.false_eq_true, if_false]
          cases hqa : q a with
          | true =>
              simp only [hqa, eq_self_iff_true, if_true, List.length_cons]
              exact Nat.le_succ_of_le ih
          | false =>
              simp only [hqa, Bool.false_eq_true, if_false]
              exact ih

theorem length_filter_strict {α : Type} (p q : α → Bool)
    (himp : ∀ a, p a = true → q a = true) (l : List α) (a : α)
    (ha : a ∈ l) (hpa : p a = false) (hqa : q a = true) :
    (l.filter p).length < (l.filter q).length := by
  obtain ⟨s, t, rfl⟩ := List.append_of_mem ha
  rw [List.filter_append, List.filter_append, List.filter_cons,
    List.filter_cons]
  simp only [hpa, hqa, Bool.false_eq_true, if_false, eq_self_iff_true,
    if_true, List.length_append, List.length_cons]
  have h1 := length_filter_mono p q himp s
  have h2 := length_filter_mono p q himp t
  omega

theorem unvisitedCount_cons_le (allIds v : List String) (n : String) :
    unvisitedCount allIds (n :: v) ≤ unvisitedCount allIds v := by
  unfold unvisitedCount
  apply length_filter_mono
  intro a hp
  rw [Bool.not_eq_true'] at hp
  rw [List.contains_cons] at hp
  rw [Bool.not_eq_true', (Bool.or_eq_false_iff.mp hp).2]

theorem unvisitedCount_cons_lt (allIds v : List String) (n : String)
    (hn : n ∈ allIds) (hv : v.contains n = false) :
    unvisitedCount allIds (n :: v) < unvisitedCount allIds v := by
  unfold unvisitedCount
  apply length_filter_strict _ _ ?imp allIds n hn ?pa ?qa
  case imp =>
    intro a hp
    rw [Bool.not_eq_true'] at hp
    rw [List.contains_cons] at hp
    rw [Bool.not_eq_true', (Bool.or_eq_false_iff.mp hp).2]
  case pa =>
    rw [Bool.not_eq_false']
    rw [List.contains_cons]
    simp
  case qa => rw [Bool.not_eq_true', hv]

theorem bfsChildren_length_le (edges : List Edge) (visited : List String)
    (n : String) (l : Nat) :
    (bfsChildren edges visited n l).length ≤ edges.length := by
  unfold bfsChildren
  rw [List.length_map]
  exact List.length_filter_le _ _

theorem bfsChildren_mem_allIds (edges : List Edge) (allIds : List String)
    (hAll : ∀ e ∈ edges, e.target ∈ allIds) (visited : List String)
    (n : String) (l : Nat) :
    ∀ p ∈ bfsChildren edges visited n l, p.1 ∈ allIds := by
  intro p hp
  unfold bfsChildren at hp
  obtain ⟨e, he, hpe⟩ := List.mem_map.mp hp
  rw [← hpe]
  exact hAll e (List.mem_of_mem_filter he)

theorem bfsLoop_isSome (edges : List Edge) (allIds : List String)
    (hAll : ∀ e ∈ edges, e.target ∈ allIds) :
    ∀ (fuel : Nat) (visited : List String) (queue acc : List (String × Nat)),
      (∀ p ∈ queue, p.1 ∈ allIds) →
      queue.length + unvisitedCount allIds visited * (edges.length + 1) <
        fuel →
      ∃ out, bfsLoop edges fuel visited queue acc = some out := by
  intro fuel
  induction fuel with
  | zero => intro v q a _ hphi; omega
  | succ fuel ih =>
      intro v q a hq hphi
      cases q with
      | nil => exact ⟨a, rfl⟩
      | cons p rest =>
          obtain ⟨n, l⟩ := p
          have heq : bfsLoop edges (fuel + 1) v ((n, l) :: rest) a =
              if v.contains n then bfsLoop edges fuel v rest a
              else bfsLoop edges fuel (n :: v)
                (rest ++ bfsChildren edges (n :: v) n l) (a ++ [(n, l)]) :=
            rfl
          rw [heq]
          by_cases hv : v.contains n
          · rw [if_pos hv]
            apply ih v rest a (fun p hp => hq p (List.mem_cons_of_mem _ hp))
            simp only [List.length_cons] at hphi
            omega
          · rw [if_neg hv]
            have hvfalse : v.contains n = false := by
              cases hcv : v.contains n
              · rfl
              · exact absurd hcv hv
            have hnall : n ∈ allIds := hq (n, l) (List.mem_cons_self _ _)
            have hlt : unvisitedCount allIds (n :: v) <
                unvisitedCount allIds v :=
              unvisitedCount_cons_lt allIds v n hnall hvfalse
            have hch : (bfsChildren edges (n :: v) n l).length ≤
                edges.length := bfsChildren_length_le edges (n :: v) n l
            apply ih (n :: v) _ (a ++ [(n, l)])
            · intro p hp
              rcases List.mem_append.mp hp with hp' | hp'
              · exact hq p (List.mem_cons_of_mem _ hp')
              · exact bfsChildren_mem_allIds edges allIds hAll (n :: v) n l
                  p hp'
            · rw [List.length_append]
              have hmul : unvisitedCount allIds (n :: v) *
                    (edges.length + 1) + (edges.length + 1) ≤
                  unvisitedCount allIds v * (edges.length + 1) := by
                have hsucc : unvisitedCount allIds (n :: v) + 1 ≤
                    unvisitedCount allIds v := hlt
                calc unvisitedCount allIds (n :: v) * (edges.length + 1) +
                      (edges.length + 1)
                    = (unvisitedCount allIds (n :: v) + 1) *
                      (edges.length + 1) := by ring
                  _ ≤ unvisitedCount allIds v * (edges.length + 1) :=
                      Nat.mul_le_mul_right _ hsucc
              simp only [List.length_cons] at hphi
              omega

theorem mem_keys_get_some {α : Type} {l : List (String × α)} {k : String}
    (h : k ∈ alistKeys l) : ∃ v, alistGet l k = some v := by
  cases hg : alistGet l k with
  | some v => exact ⟨v, rfl⟩
  | none => exact absurd h ((alistGet_none_iff l k).mp hg)

theorem alistKeys_const_map {α : Type} (l : List String) (v : α) :
    alistKeys (l.map (fun k => (k, v))) = l := by
  induction l with
  | nil => rfl
  | cons x xs ih =>
      show x :: alistKeys (xs.map (fun k => (k, v))) = x :: xs
      rw [ih]

theorem buildIncoming_ok (nodeKeys : List String) (edges : List Edge)
    (he : ∀ e ∈ edges, e.target ∈ nodeKeys) :
    ∃ out, buildIncoming nodeKeys edges = .ok out ∧
      alistKeys out = nodeKeys := by
  suffices haux : ∀ (es : List Edge) (inc : List (String × List Edge)),
      alistKeys inc = nodeKeys →
      (∀ e ∈ es, e.target ∈ nodeKeys) →
      ∃ out, es.foldlM (fun inc e =>
        match alistGet inc e.target with
        | some lst => Except.ok (alistSet inc e.target (lst ++ [e]))
        | none => Except.error ("KeyError: " ++ e.target)) inc = .ok out ∧
        alistKeys out = nodeKeys by
    exact haux edges (nodeKeys.map (fun k => (k, [])))
      (alistKeys_const_map nodeKeys []) he
  intro es
  induction es with
  | nil =>
      intro inc hk _
      refine ⟨inc, ?_, hk⟩
      simp only [List.foldlM_nil]
      rfl
  | cons e es ih =>
      intro inc hk he'
      have hmem : e.target ∈ alistKeys inc := by
        rw [hk]
        exact he' e (List.mem_cons_self _ _)
      obtain ⟨lst, hlst⟩ := mem_keys_get_some hmem
      simp only [List.foldlM_cons, hlst]
      have hbind : ∀ (x : List (String × List Edge)),
          (Except.ok x >>= fun inc' => es.foldlM (fun inc e =>
            match alistGet inc e.target with
            | some lst => Except.ok (alistSet inc e.target (lst ++ [e]))
            | none => Except.error ("KeyError: " ++ e.target)) inc' :
            Except String _) =
          es.foldlM (fun inc e =>
            match alistGet inc e.target with
            | some lst => Except.ok (alistSet inc e.target (lst ++ [e]))
            | none => Except.error ("KeyError: " ++ e.target)) x :=
        fun x => rfl
      rw [hbind]
      exact ih (alistSet inc e.target (lst ++ [e]))
        (by rw [alistKeys_alistSet]; exact hk)
        (fun e' he'' => he' e' (List.mem_cons_of_mem _ he''))

theorem alistGet_append {α : Type} (l₁ l₂ : List (String × α)) (k : String) :
    alistGet (l₁ ++ l₂) k =
      match alistGet l₁ k with
      | some v => some v
      | none => alistGet l₂ k := by
  induction l₁ with
  | nil => simp [alistGet]
  | cons p l ih =>
      cases hb : p.1 == k with
      | true =>
          rw [List.cons_append, alistGet_cons_eq _ hb, alistGet_cons_eq l hb]
      | false =>
          rw [List.cons_append, alistGet_cons_ne _ hb, alistGet_cons_ne l hb,
            ih]

theorem insertMissing_get_some {v : Nat} {nl : List (String × Nat)}
    {k' k : String} {x : Nat} (h : alistGet nl k = some x) :
    alistGet (insertMissing v nl k') k = some x := by
  unfold insertMissing
  split
  · exact h
  · rw [alistGet_append, h]

theorem foldl_insertMissing_get_some (v : Nat) :
    ∀ (ks : List String) (nl : List (String × Nat)) (k : String) (x : Nat),
      alistGet nl k = some x →
      alistGet (ks.foldl (insertMissing v) nl) k = some x := by
  intro ks
  induction ks with
  | nil => intro nl k x h; exact h
  | cons k0 ks ih =>
      intro nl k x h
      rw [List.foldl_cons]
      exact ih _ k x (insertMissing_get_some h)

theorem foldl_insertMissing_new (v : Nat) :
    ∀ (ks : List String) (nl : List (String × Nat)) (k : String),
      k ∈ ks → alistGet nl k = none →
      alistGet (ks.foldl (insertMissing v) nl) k = some v := by
  intro ks
  induction ks with
  | nil => intro nl k hk _; exact absurd hk (List.not_mem_nil k)
  | cons k0 ks ih =>
      intro nl k hk hnone
      rw [List.foldl_cons]
      by_cases hk0 : k0 = k
      · subst hk0
        have hnotin : k0 ∉ alistKeys nl := (alistGet_none_iff nl k0).mp hnone
        have : alistGet (insertMissing v nl k0) k0 = some v := by
          unfold insertMissing
          rw [if_neg hnotin, alistGet_append, hnone]
          exact alistGet_cons_eq [] (by simp)
        exact foldl_insertMissing_get_some v ks _ k0 v this
      · have hk' : k ∈ ks := by
          rcases List.mem_cons.mp hk with h | h
          · exact absurd h.symm hk0
          · exact h
        have hnone' : alistGet (insertMissing v nl k0) k = none := by
          unfold insertMissing
          split
          · exact hnone
          · rw [alistGet_append, hnone]
            have : (k0 == k) = false := by simpa using hk0
            rw [alistGet_cons_ne [] this]
            rfl
        exact ih _ k hk' hnone'

theorem foldl_insertMissing_total (v : Nat) (ks : List String)
    (nl : List (String × Nat)) (k : String) (hk : k ∈ ks) :
    ∃ x, alistGet (ks.foldl (insertMissing v) nl) k = some x := by
  cases hg : alistGet nl k with
  | some x => exact ⟨x, foldl_insertMissing_get_some v ks nl k x hg⟩
  | none => exact ⟨v, foldl_insertMissing_new v ks nl k hk hg⟩

theorem assignLayersBFS_ok (g : Graph)
    (h : ∀ e ∈ g.edges, e.target ∈ alistKeys g.nodes) :
    ∃ nl, assignLayersBFS g = .ok nl := by
  obtain ⟨inc, hinc, hkeys⟩ := buildIncoming_ok (alistKeys g.nodes) g.edges h
  unfold assignLayersBFS
  rw [hinc]
  have hAll : ∀ e ∈ g.edges, e.target ∈
      (alistKeys g.nodes ++ g.edges.map (fun e => e.target)) := by
    intro e he
    exact List.mem_append_right _ (List.mem_map_of_mem _ he)
  have hq : ∀ p ∈ ((inc.filter (fun p => p.2.isEmpty)).map
      (fun p => p.1)).map (fun n => (n, 0)),
      (p : String × Nat).1 ∈
        (alistKeys g.nodes ++ g.edges.map (fun e => e.target)) := by
    intro p hp
    obtain ⟨n, hn, hpn⟩ := List.mem_map.mp hp
    obtain ⟨q, hq', hqn⟩ := List.mem_map.mp hn
    apply List.mem_append_left
    rw [← hpn]
    simp only
    rw [← hqn, ← hkeys]
    exact List.mem_map_of_mem _ (List.mem_of_mem_filter hq')
  obtain ⟨out, hout⟩ := bfsLoop_isSome g.edges
    (alistKeys g.nodes ++ g.edges.map (fun e => e.target)) hAll
    (bfsFuel g.edges (alistKeys g.nodes ++ g.edges.map (fun e => e.target))
      (((inc.filter (fun p => p.2.isEmpty)).map (fun p => p.1)).map
        (fun n => (n, 0))))
    [] (((inc.filter (fun p => p.2.isEmpty)).map (fun p => p.1)).map
        (fun n => (n, 0))) [] hq (by unfold bfsFuel; omega)
  show ∃ nl, (match bfsLoop g.edges
      (bfsFuel g.edges (alistKeys g.nodes ++ g.edges.map (fun e => e.target))
        (((inc.filter (fun p => p.2.isEmpty)).map (fun p => p.1)).map
          (fun n => (n, 0))))
      [] (((inc.filter (fun p => p.2.isEmpty)).map (fun p => p.1)).map
        (fun n => (n, 0))) [] with
    | some nodeLayers => Except.ok nodeLayers
    | none => Except.error "fuel") = Except.ok nl
  rw [hout]
  exact ⟨out, rfl⟩

/-- The graph with one node A and one edge targeting the absent node
B. -/
def gBadC5 : Graph :=
  ⟨[("A", Node.mkDefault "A")], [⟨"e", "A", "B", none, none, none⟩],
   800, 600⟩

/-- Counterexample to claim C5: on a graph holding an edge whose
target is not a node, the layer assignment raises KeyError while
building the incoming-edge dictionary, so no node receives any layer —
the assignment is not total over every input graph. -/
theorem assign_layers_C5_counterexample :
    assignLayersCore gBadC5 = .error "KeyError: B" := rfl

/-- Claim C5 amended: on every graph whose edges all target existing
nodes — in particular on every pure cycle such as A to B to A — the
layer assignment terminates with a total assignment: it returns
normally, every node receives a layer, and every node the root BFS
did not reach is placed exactly at max_layer + 1. -/
theorem assign_layers_total_C5 (g : Graph)
    (h : ∀ e ∈ g.edges, e.target ∈ alistKeys g.nodes) :
    ∃ bfsLayers nodeLayers,
      assignLayersBFS g = .ok bfsLayers ∧
      assignLayersCore g = .ok nodeLayers ∧
      (∀ k ∈ alistKeys g.nodes, ∃ l, alistGet nodeLayers k = some l) ∧
      (∀ k ∈ alistKeys g.nodes, alistGet bfsLayers k = none →
        alistGet nodeLayers k = some
          ((if bfsLayers.isEmpty then 0
            else maxValNat (bfsLayers.map (fun p => p.2))) + 1)) := by
  obtain ⟨bfsNl, hbfs⟩ := assignLayersBFS_ok g h
  refine ⟨bfsNl, (alistKeys g.nodes).foldl
    (insertMissing ((if bfsNl.isEmpty then 0
      else maxValNat (bfsNl.map (fun p => p.2))) + 1)) bfsNl,
    hbfs, ?_, ?_, ?_⟩
  · unfold assignLayersCore
    rw [hbfs]
  · intro k hk
    exact foldl_insertMissing_total _ _ _ k hk
  · intro k hk hnone
    exact foldl_insertMissing_new _ _ _ k hk hnone

/-- The two-node cycle A to B to A. -/
def gCycC5 : Graph :=
  ⟨[("A", Node.mkDefault "A"), ("B", Node.mkDefault "B")],
   [⟨"e0", "A", "B", none, none, none⟩, ⟨"e1", "B", "A", none, none, none⟩],
   800, 600⟩

/-- Witness for claim C5 at the cyclic graph: the assignment returns
normally, and since no node has zero in-degree both nodes land at
layer max_layer + 1 = 1. -/
theorem assign_layers_total_C5_witness :
    assignLayersCore gCycC5 = .ok [("A", 1), ("B", 1)] ∧
    ∃ bfsLayers nodeLayers,
      assignLayersBFS gCycC5 = .ok bfsLayers ∧
      assignLayersCore gCycC5 = .ok nodeLayers ∧
      (∀ k ∈ alistKeys gCycC5.nodes, ∃ l, alistGet nodeLayers k = some l) ∧
      (∀ k ∈ alistKeys gCycC5.nodes, alistGet bfsLayers k = none →
        alistGet nodeLayers k = some
          ((if bfsLayers.isEmpty then 0
            else maxValNat (bfsLayers.map (fun p => p.2))) + 1)) :=
  ⟨rfl, assign_layers_total_C5 gCycC5 (by decide)⟩

/-! ## Claim C6: determinism of the builder and the edge counter -/

/-- The endpoint pair of an edge; the depth computations below read an
edge only through it. -/
def edgeST (e : Edge) : String × String := (e.source, e.target)

theorem bfsChildren_congr (e₁ e₂ : List Edge)
    (hST : e₁.map edgeST = e₂.map edgeST) (visited : List String)
    (n : String) (l : Nat) :
    bfsChildren e₁ visited n l = bfsChildren e₂ visited n l := by
  induction e₁ generalizing e₂ with
  | nil =>
      cases e₂ with
      | nil => rfl
      | cons b bs => simp at hST
  | cons a as ih =>
      cases e₂ with
      | nil => simp at hST
      | cons b bs =>
          simp only [List.map_cons, List.cons.injEq] at hST
          have hsrc : a.source = b.source := congrArg Prod.fst hST.1
          have htgt : a.target = b.target := congrArg Prod.snd hST.1
          unfold bfsChildren
          rw [List.filter_cons, List.filter_cons, hsrc, htgt]
          have hrest := ih bs hST.2
          unfold bfsChildren at hrest
          cases hcond : (b.source == n && !visited.contains b.target) with
          | true =>
              simp only [eq_self_iff_true, if_true]
              rw [List.map_cons, List.map_cons, htgt, hrest]
          | false =>
              simp only [Bool.false_eq_true, if_false]
              exact hrest

theorem bfsLoop_congr (e₁ e₂ : List Edge)
    (hST : e₁.map edgeST = e₂.map edgeST) :
    ∀ (fuel : Nat) (visited : List String) (queue acc : List (String × Nat)),
      bfsLoop e₁ fuel visited queue acc = bfsLoop e₂ fuel visited queue acc := by
  intro fuel
  induction fuel with
  | zero =>
      intro v q a
      cases q with
      | nil => rfl
      | cons p rest => rfl
  | succ fuel ih =>
      intro v q a
      cases q with
      | nil => rfl
      | cons p rest =>
          obtain ⟨n, l⟩ := p
          show (if v.contains n then bfsLoop e₁ fuel v rest a
              else bfsLoop e₁ fuel (n :: v)
                (rest ++ bfsChildren e₁ (n :: v) n l) (a ++ [(n, l)])) =
            (if v.contains n then bfsLoop e₂ fuel v rest a
              else bfsLoop e₂ fuel (n :: v)
                (rest ++ bfsChildren e₂ (n :: v) n l) (a ++ [(n, l)]))
          by_cases hv : v.contains n
          · rw [if_pos hv, if_pos hv, ih]
          · rw [if_neg hv, if_neg hv,
              bfsChildren_congr e₁ e₂ hST (n :: v) n l, ih]

theorem calcIncoming_congr (nk : List String) (e₁ e₂ : List Edge)
    (hT : e₁.map (fun e => e.target) = e₂.map (fun e => e.target)) :
    calcIncoming nk e₁ = calcIncoming nk e₂ := by
  suffices haux : ∀ (l₁ l₂ : List Edge) (inc : List (String × Nat)),
      l₁.map (fun e => e.target) = l₂.map (fun e => e.target) →
      l₁.foldl (fun inc e =>
        match alistGet inc e.target with
        | some c => alistSet inc e.target (c + 1)
        | none => inc ++ [(e.target, 1)]) inc =
      l₂.foldl (fun inc e =>
        match alistGet inc e.target with
        | some c => alistSet inc e.target (c + 1)
        | none => inc ++ [(e.target, 1)]) inc by
    exact haux e₁ e₂ _ hT
  intro l₁
  induction l₁ with
  | nil =>
      intro l₂ inc h
      cases l₂ with
      | nil => rfl
      | cons b bs => simp at h
  | cons a as ih =>
      intro l₂ inc h
      cases l₂ with
      | nil => simp at h
      | cons b bs =>
          simp only [List.map_cons, List.cons.injEq] at h
          rw [List.foldl_cons, List.foldl_cons, h.1]
          exact ih bs _ h.2

theorem map_target_of_map_edgeST {e₁ e₂ : List Edge}
    (hST : e₁.map edgeST = e₂.map edgeST) :
    e₁.map (fun e => e.target) = e₂.map (fun e => e.target) := by
  have h1 : e₁.map (fun e => e.target) = (e₁.map edgeST).map Prod.snd := by
    rw [List.map_map]; rfl
  have h2 : e₂.map (fun e => e.target) = (e₂.map edgeST).map Prod.snd := by
    rw [List.map_map]; rfl
  rw [h1, h2, hST]

theorem calculateNodeDepths_congr (n : List (String × Node))
    (e₁ e₂ : List Edge) (w₁ h₁ w₂ h₂ : ℚ)
    (hST : e₁.map edgeST = e₂.map edgeST) :
    calculateNodeDepths ⟨n, e₁, w₁, h₁⟩ = calculateNodeDepths ⟨n, e₂, w₂, h₂⟩ := by
  have hT := map_target_of_map_edgeST hST
  have hlen : e₁.length = e₂.length := by
    have := congrArg List.length hST
    simpa using this
  show (alistKeys n).foldl (insertMissing 0)
      ((bfsLoop e₁ (bfsFuel e₁ (alistKeys n ++ e₁.map (fun e => e.target))
        (((calcIncoming (alistKeys n) e₁).filter (fun p => p.2 == 0)).map
          (fun p => p.1) |>.map (fun r => (r, 0)))) []
        (((calcIncoming (alistKeys n) e₁).filter (fun p => p.2 == 0)).map
          (fun p => p.1) |>.map (fun r => (r, 0))) []).getD []) =
    (alistKeys n).foldl (insertMissing 0)
      ((bfsLoop e₂ (bfsFuel e₂ (alistKeys n ++ e₂.map (fun e => e.target))
        (((calcIncoming (alistKeys n) e₂).filter (fun p => p.2 == 0)).map
          (fun p => p.1) |>.map (fun r => (r, 0)))) []
        (((calcIncoming (alistKeys n) e₂).filter (fun p => p.2 == 0)).map
          (fun p => p.1) |>.map (fun r => (r, 0))) []).getD [])
  rw [calcIncoming_congr (alistKeys n) e₁ e₂ hT, hT,
    bfsLoop_congr e₁ e₂ hST]
  unfold bfsFuel
  rw [hlen]

theorem calculateHeight_congr (n : List (String × Node))
    (e₁ e₂ : List Edge) (w₁ h₁ w₂ h₂ : ℚ)
    (hST : e₁.map edgeST = e₂.map edgeST) :
    calculateHeight ⟨n, e₁, w₁, h₁⟩ = calculateHeight ⟨n, e₂, w₂, h₂⟩ := by
  unfold calculateHeight
  rw [calculateNodeDepths_congr n e₁ e₂ w₁ h₁ w₂ h₂ hST]

/-- An edge with its id erased; two edge lists equal under this map
differ at most in ids. -/
def eraseEdgeId (e : Edge) : Edge :=
  ⟨"", e.source, e.target, e.source_port, e.target_port, e.label⟩

/-- A graph with all edge ids erased. -/
def eraseEdgeIds (g : Graph) : Graph :=
  { g with edges := g.edges.map eraseEdgeId }

/-- The flowgraph of one connection and no blocks, on which successive
build calls are observably different. -/
def fgC6 : FlowGraph := ⟨"g", [], [⟨"a", "out", "b", "in", none⟩]⟩

/-- Counterexample to claim C6: two successive calls of build on the
same builder instance and the same FlowGraph return different Graphs —
the second call continues the instance edge counter, so the edge ids
differ. -/
theorem graph_builder_counter_C6_counterexample :
    (buildGraph 0 fgC6).1.edges.map Edge.id = ["edge_0"] ∧
    (buildGraph (buildGraph 0 fgC6).2 fgC6).1.edges.map Edge.id =
      ["edge_1"] ∧
    (buildGraph (buildGraph 0 fgC6).2 fgC6).1 ≠ (buildGraph 0 fgC6).1 := by
  refine ⟨rfl, rfl, ?_⟩
  decide

/-- Claim C6 amended: build is deterministic in the pair of FlowGraph
and counter state — calls from equal counter states agree exactly, and
calls from different counter states agree on everything except the
edge ids, which are edge_(counter + i) for the i-th connection; the
returned counter advances by the connection count. -/
theorem graph_builder_deterministic_C6 (c₁ c₂ : Nat) (fg : FlowGraph) :
    eraseEdgeIds (buildGraph c₁ fg).1 = eraseEdgeIds (buildGraph c₂ fg).1 ∧
    (buildGraph c₁ fg).1.edges.map Edge.id =
      (List.range fg.connections.length).map
        (fun i => "edge_" ++ toString (c₁ + i)) ∧
    (buildGraph c₁ fg).2 = c₁ + fg.connections.length := by
  have hedges : ∀ c : Nat, (buildGraph c fg).1.edges =
      fg.connections.enum.map
      (fun q => (⟨"edge_" ++ toString (c + q.1), q.2.source_block,
        q.2.target_block, some q.2.source_channel, some q.2.target_channel,
        makeEdgeLabel q.2⟩ : Edge)) := by
    intro c
    cases hc : (fg.blocks.map (fun p =>
        (p.1, (⟨p.1, p.1 ++ "\\n(" ++ p.2.type ++ ")", p.2.type, 0, 0, 120,
          60, p.2.inputs, p.2.outputs⟩ : Node)))).isEmpty <;>
      simp only [buildGraph, hc, if_true, if_false, Bool.false_eq_true]
  have hnodes : ∀ c : Nat, (buildGraph c fg).1.nodes = fg.blocks.map
      (fun p => (p.1, (⟨p.1, p.1 ++ "\\n(" ++ p.2.type ++ ")", p.2.type,
        0, 0, 120, 60, p.2.inputs, p.2.outputs⟩ : Node))) := by
    intro c
    cases hc : (fg.blocks.map (fun p =>
        (p.1, (⟨p.1, p.1 ++ "\\n(" ++ p.2.type ++ ")", p.2.type, 0, 0, 120,
          60, p.2.inputs, p.2.outputs⟩ : Node)))).isEmpty <;>
      simp only [buildGraph, hc, if_true, if_false, Bool.false_eq_true]
  have herase : ∀ c : Nat, (buildGraph c fg).1.edges.map eraseEdgeId =
      fg.connections.map (fun conn =>
        (⟨"", conn.source_block, conn.target_block, some conn.source_channel,
          some conn.target_channel, makeEdgeLabel conn⟩ : Edge)) := by
    intro c
    rw [hedges c, List.map_map]
    have hfun : (eraseEdgeId ∘ (fun q : Nat × Connection =>
        (⟨"edge_" ++ toString (c + q.1), q.2.source_block, q.2.target_block,
          some q.2.source_channel, some q.2.target_channel,
          makeEdgeLabel q.2⟩ : Edge))) =
        ((fun conn : Connection =>
          (⟨"", conn.source_block, conn.target_block,
            some conn.source_channel, some conn.target_channel,
            makeEdgeLabel conn⟩ : Edge)) ∘ Prod.snd) := by
      funext q
      rfl
    rw [hfun, ← List.map_map, List.enum_map_snd]
  have hST : ∀ c c' : Nat, (buildGraph c fg).1.edges.map edgeST =
      (buildGraph c' fg).1.edges.map edgeST := by
    intro c c'
    have : ∀ c : Nat, (buildGraph c fg).1.edges.map edgeST =
        fg.connections.map (fun conn =>
          (conn.source_block, conn.target_block)) := by
      intro c
      rw [hedges c, List.map_map]
      have hfun : (edgeST ∘ (fun q : Nat × Connection =>
          (⟨"edge_" ++ toString (c + q.1), q.2.source_block,
            q.2.target_block, some q.2.source_channel,
            some q.2.target_channel, makeEdgeLabel q.2⟩ : Edge))) =
          ((fun conn : Connection =>
            (conn.source_block, conn.target_block)) ∘ Prod.snd) := by
        funext q
        rfl
      rw [hfun, ← List.map_map, List.enum_map_snd]
    rw [this c, this c']
  have hwidth : ∀ c : Nat, (buildGraph c fg).1.width =
      (buildGraph 0 fg).1.width ∧ (buildGraph c fg).1.height =
      (buildGraph 0 fg).1.height := by
    intro c
    cases hc : (fg.blocks.map (fun p =>
        (p.1, (⟨p.1, p.1 ++ "\\n(" ++ p.2.type ++ ")", p.2.type, 0, 0, 120,
          60, p.2.inputs, p.2.outputs⟩ : Node)))).isEmpty with
    | true =>
        refine ⟨?_, ?_⟩ <;> simp only [buildGraph, hc, if_true]
    | false =>
        refine ⟨?_, ?_⟩
        · simp only [buildGraph, hc, if_false, Bool.false_eq_true]
        · simp only [buildGraph, hc, if_false, Bool.false_eq_true]
          have hcongr := calculateHeight_congr
            (fg.blocks.map (fun p =>
              (p.1, (⟨p.1, p.1 ++ "\\n(" ++ p.2.type ++ ")", p.2.type, 0, 0,
                120, 60, p.2.inputs, p.2.outputs⟩ : Node))))
            (fg.connections.enum.map (fun q =>
              (⟨"edge_" ++ toString (c + q.1), q.2.source_block,
                q.2.target_block, some q.2.source_channel,
                some q.2.target_channel, makeEdgeLabel q.2⟩ : Edge)))
            (fg.connections.enum.map (fun q =>
              (⟨"edge_" ++ toString (0 + q.1), q.2.source_block,
                q.2.target_block, some q.2.source_channel,
                some q.2.target_channel, makeEdgeLabel q.2⟩ : Edge)))
            800 600 800 600
            (by rw [List.map_map, List.map_map]; rfl)
          rw [hcongr]
  refine ⟨?_, ?_, ?_⟩
  · unfold eraseEdgeIds
    have h1 := herase c₁
    have h2 := herase c₂
    have hn1 := hnodes c₁
    have hn2 := hnodes c₂
    have hw1 := hwidth c₁
    have hw2 := hwidth c₂
    cases hb1 : buildGraph c₁ fg with
    | mk g1 n1 =>
        cases hb2 : buildGraph c₂ fg with
        | mk g2 n2 =>
            rw [hb1] at h1 hn1 hw1
            rw [hb2] at h2 hn2 hw2
            cases g1 with
            | mk gn1 ge1 gw1 gh1 =>
                cases g2 with
                | mk gn2 ge2 gw2 gh2 =>
                    simp only at h1 h2 hn1 hn2 hw1 hw2 ⊢
                    rw [h1, h2, hn1, hn2, hw1.1, hw2.1, hw1.2, hw2.2]
  · rw [hedges c₁, List.map_map]
    have hfun : (Edge.id ∘ (fun q : Nat × Connection =>
        (⟨"edge_" ++ toString (c₁ + q.1), q.2.source_block,
          q.2.target_block, some q.2.source_channel,
          some q.2.target_channel, makeEdgeLabel q.2⟩ : Edge))) =
        ((fun i => "edge_" ++ toString (c₁ + i)) ∘ Prod.fst) := by
      funext q
      rfl
    rw [hfun, ← List.map_map, List.enum_map_fst]
  · cases hc : (fg.blocks.map (fun p =>
        (p.1, (⟨p.1, p.1 ++ "\\n(" ++ p.2.type ++ ")", p.2.type, 0, 0, 120,
          60, p.2.inputs, p.2.outputs⟩ : Node)))).isEmpty <;>
      simp only [buildGraph, hc, if_true, if_false, Bool.false_eq_true]

/-! ## Claim C8: force-directed bounds and coincident nodes -/

theorem except_pure_eq {ε α : Type} (a : α) :
    (pure a : Except ε α) = Except.ok a := rfl

theorem clampX_bounds (x : ℚ) : 50 ≤ clampX x ∧ clampX x ≤ 750 := by
  unfold clampX
  constructor
  · exact le_max_left _ _
  · exact max_le (by norm_num) (min_le_left _ _)

theorem clampY_bounds (y : ℚ) : 50 ≤ clampY y ∧ clampY y ≤ 550 := by
  unfold clampY
  constructor
  · exact le_max_left _ _
  · exact max_le (by norm_num) (min_le_left _ _)

theorem applyForcesPass_bounds (d : ℚ) (f : List (String × (ℚ × ℚ)))
    (nodes : List (String × Node)) :
    ∀ p ∈ applyForcesPass d f nodes,
      50 ≤ (p : String × Node).2.x ∧ p.2.x ≤ 750 ∧
      50 ≤ p.2.y ∧ p.2.y ≤ 550 := by
  intro p hp
  unfold applyForcesPass at hp
  obtain ⟨q, _, hqp⟩ := List.mem_map.mp hp
  rw [← hqp]
  exact ⟨(clampX_bounds _).1, (clampX_bounds _).2, (clampY_bounds _).1,
    (clampY_bounds _).2⟩

theorem applyForcesPass_keys (d : ℚ) (f : List (String × (ℚ × ℚ)))
    (nodes : List (String × Node)) :
    alistKeys (applyForcesPass d f nodes) = alistKeys nodes := by
  unfold applyForcesPass alistKeys
  rw [List.map_map]
  rfl

theorem attractionPass_ok (sqrt : ℚ → ℚ) (S : ℚ)
    (nodes : List (String × Node)) :
    ∀ (edges : List Edge) (f : List (String × (ℚ × ℚ))),
      (∀ e ∈ edges, e.source ∈ alistKeys nodes ∧
        e.target ∈ alistKeys nodes) →
      ∃ f', attractionPass sqrt S nodes edges f = .ok f' := by
  intro edges
  induction edges with
  | nil =>
      intro f _
      refine ⟨f, ?_⟩
      unfold attractionPass
      simp only [List.foldlM_nil]
      rfl
  | cons e es ih =>
      intro f he
      obtain ⟨n1, h1⟩ := mem_keys_get_some (he e (List.mem_cons_self _ _)).1
      obtain ⟨n2, h2⟩ := mem_keys_get_some (he e (List.mem_cons_self _ _)).2
      cases hstep : attractionStep sqrt S nodes f e with
      | error msg =>
          exfalso
          unfold attractionStep at hstep
          split at hstep
          · next heq => rw [h1] at heq; exact Option.noConfusion heq
          · next heq =>
              split at hstep
              · next heq2 => rw [h2] at heq2; exact Option.noConfusion heq2
              · next =>
                  simp only [gt_iff_lt] at hstep
                  split at hstep <;> exact Except.noConfusion hstep
      | ok f'' =>
          obtain ⟨f', hf'⟩ := ih f''
            (fun e' he' => he e' (List.mem_cons_of_mem _ he'))
          refine ⟨f', ?_⟩
          unfold attractionPass at hf' ⊢
          simp only [List.foldlM_cons, hstep]
          exact hf'

theorem forceIteration_ok (sqrt : ℚ → ℚ) (P : ForceParams) (g : Graph)
    (h : ∀ e ∈ g.edges, e.source ∈ alistKeys g.nodes ∧
      e.target ∈ alistKeys g.nodes) :
    ∃ g', forceIteration sqrt P g = .ok g' ∧ g'.edges = g.edges ∧
      alistKeys g'.nodes = alistKeys g.nodes ∧
      ∃ f2, g'.nodes = applyForcesPass P.damping f2 g.nodes := by
  obtain ⟨f2, hf2⟩ := attractionPass_ok sqrt P.spring_constant g.nodes
    g.edges (repulsionPass sqrt P.repulsion_constant g.nodes
      (g.nodes.map (fun p => (p.1, ((0 : ℚ), (0 : ℚ)))))) h
  refine ⟨{ g with nodes := applyForcesPass P.damping f2 g.nodes }, ?_, rfl,
    applyForcesPass_keys _ _ _, f2, rfl⟩
  simp only [forceIteration, hf2]

theorem forceLoop_ok (sqrt : ℚ → ℚ) (P : ForceParams) :
    ∀ (n : Nat) (g : Graph),
      (∀ e ∈ g.edges, e.source ∈ alistKeys g.nodes ∧
        e.target ∈ alistKeys g.nodes) →
      ∃ g', forceLoop sqrt P n g = .ok g' ∧ g'.edges = g.edges ∧
        alistKeys g'.nodes = alistKeys g.nodes ∧
        (1 ≤ n → ∀ p ∈ g'.nodes,
          50 ≤ (p : String × Node).2.x ∧ p.2.x ≤ 750 ∧
          50 ≤ p.2.y ∧ p.2.y ≤ 550) := by
  intro n
  induction n with
  | zero =>
      intro g hg
      exact ⟨g, rfl, rfl, rfl, fun hc => absurd hc (by omega)⟩
  | succ n ih =>
      intro g hg
      obtain ⟨gn, hgn, hge, hgk, _⟩ := ih g hg
      have hg' : ∀ e ∈ gn.edges, e.source ∈ alistKeys gn.nodes ∧
          e.target ∈ alistKeys gn.nodes := by
        rw [hge, hgk]
        exact hg
      obtain ⟨g', hok, he', hk', f2, hnodes⟩ := forceIteration_ok sqrt P gn hg'
      have hloop : forceLoop sqrt P (n + 1) g = forceIteration sqrt P gn := by
        show (match forceLoop sqrt P n g with
          | Except.error e => Except.error e
          | Except.ok g' => forceIteration sqrt P g') = _
        rw [hgn]
      refine ⟨g', by rw [hloop]; exact hok, by rw [he', hge],
        by rw [hk', hgk], fun _ => ?_⟩
      rw [hnodes]
      exact applyForcesPass_bounds _ _ _

/-- Claim C8 amended: on every graph whose edges resolve to existing
nodes, running at least one iteration returns normally and leaves
every node clamped inside the canvas bounds, x in 50 to 750 and y in
50 to 550; the no-two-nodes-coincide part of the original claim is
dropped — nodes at identical positions receive zero repulsion (the
dist greater than zero guard) and can stay coincident. -/
theorem force_directed_bounds_C8 (sqrt : ℚ → ℚ) (P : ForceParams)
    (initPos : String → ℚ × ℚ) (g : Graph) (h1 : 1 ≤ P.iterations)
    (h2 : ∀ e ∈ g.edges, e.source ∈ alistKeys g.nodes ∧
      e.target ∈ alistKeys g.nodes) :
    ∃ g', forceDirectedApply sqrt P initPos g = .ok g' ∧
      ∀ p ∈ g'.nodes, 50 ≤ (p : String × Node).2.x ∧ p.2.x ≤ 750 ∧
        50 ≤ p.2.y ∧ p.2.y ≤ 550 := by
  unfold forceDirectedApply
  by_cases hempty : g.nodes.isEmpty
  · rw [if_pos hempty]
    refine ⟨g, rfl, ?_⟩
    intro p hp
    rw [List.isEmpty_iff] at hempty
    rw [hempty] at hp
    exact absurd hp (List.not_mem_nil p)
  · rw [if_neg hempty]
    have hkeys : alistKeys ((g.nodes.map (fun p =>
        (p.1, { p.2 with x := (initPos p.1).1, y := (initPos p.1).2 })))) =
        alistKeys g.nodes := by
      unfold alistKeys
      rw [List.map_map]
      rfl
    obtain ⟨g', hok, _, _, hbounds⟩ := forceLoop_ok sqrt P P.iterations
      { g with nodes := g.nodes.map (fun p =>
          (p.1, { p.2 with x := (initPos p.1).1, y := (initPos p.1).2 })) }
      (by
        intro e he
        have := h2 e he
        simp only [hkeys]
        exact this)
    exact ⟨g', hok, hbounds h1⟩

/-- A square-root model on the rationals: exact on the squares of
naturals, and in particular at zero, the only point the concrete runs
below evaluate it at, where it agrees with math.sqrt exactly. -/
def ratSqrt (q : ℚ) : ℚ := (Nat.sqrt q.num.toNat : ℚ)

/-- Two nodes and no edges. -/
def gC8 : Graph :=
  ⟨[("a", Node.mkDefault "a"), ("b", Node.mkDefault "b")], [], 800, 600⟩

/-- Counterexample to claim C8: with the repulsion constant 5000
positive, more than one node, one iteration, and a random outcome that
initializes both nodes at the same point, the two distinct nodes end
at exactly the same coordinates — coincident nodes receive zero
repulsion. -/
theorem force_directed_coincident_C8_counterexample :
    (0 : ℚ) < 5000 ∧
    forceDirectedApply ratSqrt ⟨1, 1/10, 5000, 17/20⟩
        (fun _ => (100, 100)) gC8 =
      .ok ⟨[("a", { Node.mkDefault "a" with x := 100, y := 100 }),
            ("b", { Node.mkDefault "b" with x := 100, y := 100 })],
           [], 800, 600⟩ := by
  refine ⟨by norm_num, ?_⟩
  norm_num [forceDirectedApply, gC8, forceLoop, forceIteration,
    repulsionPass, repulsionInner, attractionPass, applyForcesPass,
    forcesAdd, alistGet, alistSet, clampX, clampY, ratSqrt,
    Node.mkDefault, List.foldlM, List.foldl, List.map, List.find?,
    min_def, max_def, except_pure_eq,
    show ("a" == "b") = false from rfl, show ("b" == "a") = false from rfl,
    show ("a" == "a") = true from rfl, show ("b" == "b") = true from rfl]

/-- Witness for the amended claim C8 at a concrete input: one
iteration on the two-node graph returns normally with both nodes in
bounds. -/
theorem force_directed_bounds_C8_witness :
    ∃ g', forceDirectedApply ratSqrt ⟨1, 1/10, 5000, 17/20⟩
        (fun _ => (100, 100)) gC8 = .ok g' ∧
      ∀ p ∈ g'.nodes, 50 ≤ (p : String × Node).2.x ∧ p.2.x ≤ 750 ∧
        50 ≤ p.2.y ∧ p.2.y ≤ 550 :=
  force_directed_bounds_C8 ratSqrt ⟨1, 1/10, 5000, 17/20⟩
    (fun _ => (100, 100)) gC8 (by norm_num) (by simp [gC8])

end ClerTools
